import Mathlib

/-! # Euler joint kinematics

A shallow embedding of `dart/dynamics/EulerJoint.cpp` (class `dart::dynamics::EulerJoint`)
together with the parts of Eigen and of `dart/math` that the joint code calls.

* `double` is an arbitrary scalar type `α`; the functions `cos`, `sin` of `<cmath>` and the
  constant `DART_PI` are passed in a record `Scalar α`, so every definition below is
  executable on any computable scalar type.  The theorems instantiate `α` with the real
  numbers and the record with `Real.cos`, `Real.sin`, `Real.pi`: they speak about the
  formulas of the code in exact arithmetic, not about rounding.
* `Eigen::Vector3d`, `Eigen::Vector6d`, `Eigen::Matrix3d`, `Eigen::Matrix4d` are functions
  on `Fin n` and Mathlib matrices; `Eigen::Isometry3d` is a record of its linear block and its
  translation column, whose bottom row `(0, 0, 0, 1)` is implicit.
* An object of the class is a record of its fields; a `void` method is a function from the
  record to the updated record.
-/

open Matrix

namespace Eigen

/-- The type `Eigen::Vector3d`. -/
abbrev Vector3d (α : Type) := Fin 3 → α

/-- The type `Eigen::Vector6d`. -/
abbrev Vector6d (α : Type) := Fin 6 → α

/-- The type `Eigen::Matrix3d`. -/
abbrev Matrix3d (α : Type) := Matrix (Fin 3) (Fin 3) α

/-- The type `Eigen::Matrix4d`. -/
abbrev Matrix4d (α : Type) := Matrix (Fin 4) (Fin 4) α

/-- The 6x3 matrix type of `mJacobian` and `mJacobianDeriv`. -/
abbrev Matrix63 (α : Type) := Matrix (Fin 6) (Fin 3) α

/-- The member `a.cross(b)` of `Eigen::Vector3d`. -/
def cross {α : Type} [CommRing α] (a b : Vector3d α) : Vector3d α :=
  ![a 1 * b 2 - a 2 * b 1, a 2 * b 0 - a 0 * b 2, a 0 * b 1 - a 1 * b 0]

/-- The block `V.head<3>()` of a six-vector. -/
def head3 {α : Type} (V : Vector6d α) : Vector3d α := ![V 0, V 1, V 2]

/-- The block `V.tail<3>()` of a six-vector. -/
def tail3 {α : Type} (V : Vector6d α) : Vector3d α := ![V 3, V 4, V 5]

/-- The six-vector whose head is `w` and whose tail is `v`. -/
def join3 {α : Type} (w v : Vector3d α) : Vector6d α := ![w 0, w 1, w 2, v 0, v 1, v 2]

/-- The type `Eigen::Isometry3d`: a 4x4 affine matrix stored as its 3x3 linear block and its
translation column; the bottom row is `(0, 0, 0, 1)`. -/
structure Isometry3d (α : Type) where
  linear : Matrix3d α
  translation : Vector3d α

namespace Isometry3d

variable {α : Type} [CommRing α]

/-- The constant `Eigen::Isometry3d::Identity()`. -/
def Identity : Isometry3d α := ⟨1, 0⟩

/-- The constructor `Eigen::Isometry3d(const Matrix3d&)`: the given linear block and a zero
translation. -/
def ofLinear (R : Matrix3d α) : Isometry3d α := ⟨R, 0⟩

/-- The product `a * b` of two isometries (composition of affine maps). -/
def mul (a b : Isometry3d α) : Isometry3d α :=
  ⟨a.linear * b.linear, a.linear.mulVec b.translation + a.translation⟩

/-- The member `inverse()` in mode `Isometry`: Eigen transposes the linear block and sets the
translation to minus the transposed block applied to the translation. -/
def inverse (a : Isometry3d α) : Isometry3d α :=
  ⟨a.linearᵀ, -(a.linearᵀ.mulVec a.translation)⟩

/-- The member `matrix()`: the 4x4 matrix of the transform. -/
def matrix (a : Isometry3d α) : Matrix4d α := fun i j =>
  if hi : i.val < 3 then
    if hj : j.val < 3 then a.linear ⟨i.val, hi⟩ ⟨j.val, hj⟩ else a.translation ⟨i.val, hi⟩
  else
    if j.val < 3 then 0 else 1

end Isometry3d

/-- The assignment `ret.topLeftCorner<3, 3>() = M` on `ret = Eigen::Matrix4d::Zero()`. -/
def topLeftCorner3 {α : Type} [Zero α] (M : Matrix3d α) : Matrix4d α := fun i j =>
  if hi : i.val < 3 then
    if hj : j.val < 3 then M ⟨i.val, hi⟩ ⟨j.val, hj⟩ else 0
  else 0

end Eigen

namespace dart

open Eigen

/-- The functions `cos` and `sin` of `<cmath>` on the scalar type, and the constant
`DART_PI` of `dart/math/Helpers.h`. -/
structure Scalar (α : Type) where
  cos : α → α
  sin : α → α
  DART_PI : α

namespace math

variable {α : Type} [CommRing α]

/-- The elementary rotation about the x axis by the angle `θ`. -/
def rotX (ops : Scalar α) (θ : α) : Matrix3d α :=
  !![1, 0, 0; 0, ops.cos θ, -ops.sin θ; 0, ops.sin θ, ops.cos θ]

/-- The elementary rotation about the y axis by the angle `θ`. -/
def rotY (ops : Scalar α) (θ : α) : Matrix3d α :=
  !![ops.cos θ, 0, ops.sin θ; 0, 1, 0; -ops.sin θ, 0, ops.cos θ]

/-- The elementary rotation about the z axis by the angle `θ`. -/
def rotZ (ops : Scalar α) (θ : α) : Matrix3d α :=
  !![ops.cos θ, -ops.sin θ, 0; ops.sin θ, ops.cos θ, 0; 0, 0, 1]

/-- Modelled from the spec: `math::eulerXYZToMatrix` lives in `dart/math/Geometry.cpp`, which
is not among the sources.  The spec asks for the closed-form formula of the composed rotation
of the XYZ ordering; the entries are those of the rotation about x by `_angle[0]`, then about
y by `_angle[1]`, then about z by `_angle[2]`. -/
def eulerXYZToMatrix (ops : Scalar α) (_angle : Vector3d α) : Matrix3d α :=
  let cx := ops.cos (_angle 0)
  let sx := ops.sin (_angle 0)
  let cy := ops.cos (_angle 1)
  let sy := ops.sin (_angle 1)
  let cz := ops.cos (_angle 2)
  let sz := ops.sin (_angle 2)
  !![cy * cz, -(cy * sz), sy;
     sx * sy * cz + cx * sz, cx * cz - sx * sy * sz, -(sx * cy);
     -(cx * sy * cz) + sx * sz, cx * sy * sz + sx * cz, cx * cy]

/-- Modelled from the spec: `math::eulerZYXToMatrix` lives in `dart/math/Geometry.cpp`, which
is not among the sources.  The spec asks for the closed-form formula of the composed rotation
of the ZYX ordering; the entries are those of the rotation about z by `_angle[0]`, then about
y by `_angle[1]`, then about x by `_angle[2]`. -/
def eulerZYXToMatrix (ops : Scalar α) (_angle : Vector3d α) : Matrix3d α :=
  let cz := ops.cos (_angle 0)
  let sz := ops.sin (_angle 0)
  let cy := ops.cos (_angle 1)
  let sy := ops.sin (_angle 1)
  let cx := ops.cos (_angle 2)
  let sx := ops.sin (_angle 2)
  !![cz * cy, cz * sy * sx - sz * cx, cz * sy * cx + sz * sx;
     sz * cy, sz * sy * sx + cz * cx, sz * sy * cx - cz * sx;
     -sy, cy * sx, cy * cx]

/-- Modelled from the spec: `math::eulerToMatrixXDeriv` is declared in `dart/math`, outside
the sources.  The spec calls it the single-axis derivative formula: the derivative, with
respect to the angle, of the elementary rotation about the x axis. -/
def eulerToMatrixXDeriv (ops : Scalar α) (θ : α) : Matrix3d α :=
  !![0, 0, 0; 0, -ops.sin θ, -ops.cos θ; 0, ops.cos θ, -ops.sin θ]

/-- Modelled from the spec: `math::eulerToMatrixYDeriv` is declared in `dart/math`, outside
the sources.  The derivative, with respect to the angle, of the elementary rotation about the
y axis. -/
def eulerToMatrixYDeriv (ops : Scalar α) (θ : α) : Matrix3d α :=
  !![-ops.sin θ, 0, ops.cos θ; 0, 0, 0; -ops.cos θ, 0, -ops.sin θ]

/-- Modelled from the spec: `math::eulerToMatrixZDeriv` is declared in `dart/math`, outside
the sources.  The derivative, with respect to the angle, of the elementary rotation about the
z axis. -/
def eulerToMatrixZDeriv (ops : Scalar α) (θ : α) : Matrix3d α :=
  !![-ops.sin θ, -ops.cos θ, 0; ops.cos θ, -ops.sin θ, 0; 0, 0, 0]

/-- Modelled from the spec: `math::AdT` lives in `dart/math/Geometry.cpp`, which is not among
the sources.  The spec describes it as re-expressing a twist through a fixed transform
`T = (R, p)`: the angular part `w` becomes `R w` and the linear part `v` becomes
`R v + p x (R w)`. -/
def AdT (_T : Isometry3d α) (_V : Vector6d α) : Vector6d α :=
  let w := _T.linear.mulVec (head3 _V)
  join3 w (_T.linear.mulVec (tail3 _V) + cross _T.translation w)

/-- Modelled from the spec: `math::verifyTransform` lives in `dart/math/Geometry.cpp`, which is
not among the sources.  The spec asks that a transform be a rigid transform within tolerance;
the check is modelled as the determinant of the rotation block lying within `DART_EPSILON` of
1.  The tolerance `DART_EPSILON` of `dart/math/Helpers.h` is a parameter, and the accompanying
test for NaN entries cannot fail on exact scalars. -/
def verifyTransform {α : Type} [LinearOrderedField α] (DART_EPSILON : α) (_T : Isometry3d α) :
    Bool :=
  decide (|_T.linear.det - 1| ≤ DART_EPSILON)

end math

namespace dynamics

/-- Modelled from the spec: the enumeration `EulerJoint::AxisOrder` is declared in
`dart/dynamics/EulerJoint.h`, which is not among the sources.  The spec names the orderings
XYZ and ZYX; a C++ enumeration object can hold other values of its underlying type, and
`AO_UNDEFINED raw` stands for those. -/
inductive AxisOrder where
  | AO_ZYX
  | AO_XYZ
  | AO_UNDEFINED (raw : Nat)
  deriving DecidableEq, Repr

/-- A line written to the console by `updateLocalJacobian`.  The name of the joint and the
numbers that the code prints are kept; the wording and the rank printed with the
ill-conditioning report are not. -/
inductive Diagnostic (α : Type) where
  /-- The line `dterr << "Undefined Euler axis order\n"`. -/
  | undefinedAxisOrder
  /-- The line "Singular configuration in ZYX-euler joint [name]. (q0, q1, q2)". -/
  | singularConfiguration (name : String) (q0 q1 q2 : α)
  /-- The lines "ill-conditioned Jacobian in joint [name]. The determinant ... is (det)". -/
  | illConditionedJacobian (name : String) (det : α)

/-- The ways a call can leave defined behaviour. -/
inductive Fault where
  /-- A failed `assert`, which aborts a build without `NDEBUG`. -/
  | assertionFailed
  /-- An access to a three-element vector at an index past its end. -/
  | outOfBounds
  deriving DecidableEq, Repr

/-- The fields of `dart::dynamics::EulerJoint` that `EulerJoint.cpp` reads or writes; all but
`mAxisOrder` are inherited from `MultiDofJoint<3>` and `Joint`. -/
structure EulerJoint (α : Type) where
  mName : String
  mAxisOrder : AxisOrder
  mPositions : Vector3d α
  mVelocities : Vector3d α
  mT_ParentBodyToJoint : Isometry3d α
  mT_ChildBodyToJoint : Isometry3d α
  mT : Isometry3d α
  mJacobian : Matrix63 α
  mJacobianDeriv : Matrix63 α

namespace EulerJoint

section Ring

variable {α : Type} [CommRing α]

/-- The constructor `EulerJoint::EulerJoint(const std::string& _name)`.  The base-class
constructor `MultiDofJoint(_name)` is not among the sources: it is the parameter `base`, which
gives the object with its inherited fields initialised; the member initialiser then sets
`mAxisOrder(AO_XYZ)`.  Inside this namespace the name `EulerJoint` denotes the record type, so
the constructor is called `construct`. -/
def construct (base : String → EulerJoint α) (_name : String) : EulerJoint α :=
  { base _name with mAxisOrder := .AO_XYZ }

/-- The method `EulerJoint::setAxisOrder`. -/
def setAxisOrder (j : EulerJoint α) (_order : AxisOrder) : EulerJoint α :=
  { j with mAxisOrder := _order }

/-- The method `EulerJoint::getAxisOrder`. -/
def getAxisOrder (j : EulerJoint α) : AxisOrder := j.mAxisOrder

/-- The method `EulerJoint::updateLocalTransform`, up to its closing
`assert(math::verifyTransform(mT))`: the switch on the axis order assigns `mT` in the two
recognised cases and only writes to `dterr` in the default case, which leaves `mT` as it
was. -/
def updateLocalTransform (ops : Scalar α) (j : EulerJoint α) : EulerJoint α :=
  match j.mAxisOrder with
  | .AO_XYZ =>
    let R := Isometry3d.ofLinear (math.eulerXYZToMatrix ops j.mPositions)
    { j with mT := (j.mT_ParentBodyToJoint.mul R).mul j.mT_ChildBodyToJoint.inverse }
  | .AO_ZYX =>
    let R := Isometry3d.ofLinear (math.eulerZYXToMatrix ops j.mPositions)
    { j with mT := (j.mT_ParentBodyToJoint.mul R).mul j.mT_ChildBodyToJoint.inverse }
  | .AO_UNDEFINED _ => j

/-- The locals `J0`, `J1`, `J2` of `EulerJoint::updateLocalJacobian` after its switch on the
axis order: the elementary twists before the adjoint, indexed by the coordinate. -/
def localJacobianTwists (ops : Scalar α) (order : AxisOrder) (mPositions : Vector3d α) :
    Fin 3 → Vector6d α :=
  let q1 := mPositions 1
  let q2 := mPositions 2
  let c1 := ops.cos q1
  let c2 := ops.cos q2
  let s1 := ops.sin q1
  let s2 := ops.sin q2
  match order with
  | .AO_XYZ =>
    ![![c1 * c2, -(c1 * s2), s1, 0, 0, 0],
      ![s2, c2, 0, 0, 0, 0],
      ![0, 0, 1, 0, 0, 0]]
  | .AO_ZYX =>
    ![![-s1, s2 * c1, c1 * c2, 0, 0, 0],
      ![0, c2, -s2, 0, 0, 0],
      ![1, 0, 0, 0, 0, 0]]
  | .AO_UNDEFINED _ => ![0, 0, 0]

/-- The locals `dJ0`, `dJ1`, `dJ2` of `EulerJoint::updateLocalJacobianTimeDeriv` after its
switch on the axis order. -/
def localJacobianTimeDerivTwists (ops : Scalar α) (order : AxisOrder)
    (mPositions mVelocities : Vector3d α) : Fin 3 → Vector6d α :=
  let q1 := mPositions 1
  let q2 := mPositions 2
  let dq1 := mVelocities 1
  let dq2 := mVelocities 2
  let c1 := ops.cos q1
  let c2 := ops.cos q2
  let s1 := ops.sin q1
  let s2 := ops.sin q2
  match order with
  | .AO_XYZ =>
    ![![-(dq1 * c2 * s1) - dq2 * c1 * s2, -(dq2 * c1 * c2) + dq1 * s1 * s2, dq1 * c1, 0, 0, 0],
      ![dq2 * c2, -(dq2 * s2), 0, 0, 0, 0],
      ![0, 0, 0, 0, 0, 0]]
  | .AO_ZYX =>
    ![![-c1 * dq1, c2 * c1 * dq2 - s2 * s1 * dq1, -s1 * c2 * dq1 - c1 * s2 * dq2, 0, 0, 0],
      ![0, -s2 * dq2, -c2 * dq2, 0, 0, 0],
      ![0, 0, 0, 0, 0, 0]]
  | .AO_UNDEFINED _ => ![0, 0, 0]

/-- The three column assignments `M.col(i) = math::AdT(mT_ChildBodyToJoint, Ji)` that end
`updateLocalJacobian` and `updateLocalJacobianTimeDeriv`. -/
def assignAdTColumns (T : Isometry3d α) (M : Matrix63 α) (J : Fin 3 → Vector6d α) :
    Matrix63 α :=
  ((M.updateColumn 0 (math.AdT T (J 0))).updateColumn 1 (math.AdT T (J 1))).updateColumn 2
    (math.AdT T (J 2))

/-- The method `EulerJoint::updateLocalJacobianTimeDeriv`; its `dterr` line of the default
case is not recorded, and `assert(!math::isNan(mJacobianDeriv))` cannot fail on exact
scalars. -/
def updateLocalJacobianTimeDeriv (ops : Scalar α) (j : EulerJoint α) : EulerJoint α :=
  let dJ := localJacobianTimeDerivTwists ops j.mAxisOrder j.mPositions j.mVelocities
  { j with mJacobianDeriv := assignAdTColumns j.mT_ChildBodyToJoint j.mJacobianDeriv dJ }

/-- The method `EulerJoint::getTransform`.  With assertions compiled in, `assert(_index < 3)`
aborts on an index past 2; with `NDEBUG` the statement `q[_index] = mPositions[_index]` then
reads and writes past the end of two three-element vectors.  The `dterr` line of the default
case is not recorded. -/
def getTransform (ops : Scalar α) (ndebug : Bool) (j : EulerJoint α) (_index : Nat) :
    Except Fault (Isometry3d α) :=
  if !ndebug && !decide (_index < 3) then .error .assertionFailed
  else if h : _index < 3 then
    let q : Vector3d α := Function.update 0 ⟨_index, h⟩ (j.mPositions ⟨_index, h⟩)
    match j.mAxisOrder with
    | .AO_XYZ => .ok (Isometry3d.ofLinear (math.eulerXYZToMatrix ops q))
    | .AO_ZYX => .ok (Isometry3d.ofLinear (math.eulerZYXToMatrix ops q))
    | .AO_UNDEFINED _ => .ok Isometry3d.Identity
  else .error .outOfBounds

/-- The method `EulerJoint::getTransformDerivative`.  With assertions compiled in,
`assert(_index < 3)` aborts on an index past 2; with `NDEBUG` such an index reaches the
`default` of the inner switch and the zero matrix is returned.  The `dterr` line of the outer
default case is not recorded. -/
def getTransformDerivative (ops : Scalar α) (ndebug : Bool) (j : EulerJoint α) (_index : Nat) :
    Except Fault (Matrix4d α) :=
  if !ndebug && !decide (_index < 3) then .error .assertionFailed
  else
    let q0 := j.mPositions 0
    let q1 := j.mPositions 1
    let q2 := j.mPositions 2
    match j.mAxisOrder with
    | .AO_XYZ =>
      match _index with
      | 0 => .ok (topLeftCorner3 (math.eulerToMatrixXDeriv ops q0))
      | 1 => .ok (topLeftCorner3 (math.eulerToMatrixYDeriv ops q1))
      | 2 => .ok (topLeftCorner3 (math.eulerToMatrixZDeriv ops q2))
      | _ => .ok 0
    | .AO_ZYX =>
      match _index with
      | 0 => .ok (topLeftCorner3 (math.eulerToMatrixZDeriv ops q0))
      | 1 => .ok (topLeftCorner3 (math.eulerToMatrixYDeriv ops q1))
      | 2 => .ok (topLeftCorner3 (math.eulerToMatrixXDeriv ops q2))
      | _ => .ok 0
    | .AO_UNDEFINED _ => .ok 0

end Ring

section Field

variable {α : Type} [LinearOrderedField α]

/-- The console output of `EulerJoint::updateLocalJacobian` in a build without `NDEBUG`, given
the Jacobian `J` that the method has just stored: the singular-configuration line of the two
recognised cases, the `dterr` line of the default case, and the ill-conditioning report, which
compares the determinant of `J^T J` (taken by `Eigen::FullPivLU`) with `1e-5`. -/
def jacobianDiagnostics (ops : Scalar α) (j : EulerJoint α) (J : Matrix63 α) :
    List (Diagnostic α) :=
  (match j.mAxisOrder with
    | .AO_UNDEFINED _ => [Diagnostic.undefinedAxisOrder]
    | _ =>
      if |j.mPositions 1| = ops.DART_PI * 0.5 then
        [Diagnostic.singularConfiguration j.mName (j.mPositions 0) (j.mPositions 1)
          (j.mPositions 2)]
      else [])
  ++ (if (Jᵀ * J).det < 1e-5 then [Diagnostic.illConditionedJacobian j.mName (Jᵀ * J).det]
      else [])

/-- The method `EulerJoint::updateLocalJacobian`: the updated joint and the lines written to
the console.  With `NDEBUG` only the `dterr` line of the default case is left.  The assertion
`assert(!math::isNan(mJacobian))` cannot fail on exact scalars and is left out. -/
def updateLocalJacobian (ops : Scalar α) (ndebug : Bool) (j : EulerJoint α) :
    EulerJoint α × List (Diagnostic α) :=
  let J := assignAdTColumns j.mT_ChildBodyToJoint j.mJacobian
    (localJacobianTwists ops j.mAxisOrder j.mPositions)
  ({ j with mJacobian := J },
    if ndebug then
      (match j.mAxisOrder with
        | .AO_UNDEFINED _ => [Diagnostic.undefinedAxisOrder]
        | _ => [])
    else jacobianDiagnostics ops j J)

end Field

/-- A joint named "joint" at rest: axis order XYZ, zero coordinates and velocities, identity
offsets and transform, zero Jacobians.  It is the concrete object on which the statements
below are evaluated. -/
def restJoint {α : Type} [CommRing α] : EulerJoint α :=
  ⟨"joint", .AO_XYZ, 0, 0, Isometry3d.Identity, Isometry3d.Identity, Isometry3d.Identity, 0, 0⟩

end EulerJoint

end dynamics

/-! ## Notions used to state the properties -/

namespace math

/-- The skew-symmetric matrix `[w]` of a vector: `[w] v` is the cross product of `w` and `v`. -/
def skew {α : Type} [CommRing α] (w : Vector3d α) : Matrix3d α :=
  !![0, -w 2, w 1; w 2, 0, -w 0; -w 1, w 0, 0]

/-- A transform is rigid when its rotation block is orthogonal with determinant 1; the bottom
row `(0, 0, 0, 1)` is part of `Isometry3d`. -/
def IsRigid {α : Type} [CommRing α] (T : Isometry3d α) : Prop :=
  T.linearᵀ * T.linear = 1 ∧ T.linear.det = 1

/-- The 3x3 angular block `S` of three twists: column `c` is the head of the twist `J c`. -/
def angularBlock {α : Type} (J : Fin 3 → Vector6d α) : Matrix3d α :=
  Matrix.of fun r c => head3 (J c) r

/-- A matrix-valued function of a real variable has the entrywise derivative `M'` at `t`. -/
def MatHasDerivAt {m n : Type} (M : ℝ → Matrix m n ℝ) (M' : Matrix m n ℝ) (t : ℝ) : Prop :=
  ∀ a b, HasDerivAt (fun s => M s a b) (M' a b) t

/-- A vector-valued function of a real variable has the entrywise derivative `V'` at `t`. -/
def VecHasDerivAt {n : Type} (V : ℝ → n → ℝ) (V' : n → ℝ) (t : ℝ) : Prop :=
  ∀ a, HasDerivAt (fun s => V s a) (V' a) t

/-- The elementary rotation that belongs to coordinate `i` under an axis order: about x, y, z
for the indices 0, 1, 2 under XYZ and about z, y, x under ZYX; the identity under an
unrecognised order. -/
def elementaryRotation {α : Type} [CommRing α] (ops : Scalar α) :
    dynamics.AxisOrder → Fin 3 → α → Matrix3d α
  | .AO_XYZ, 0 => rotX ops
  | .AO_XYZ, 1 => rotY ops
  | .AO_XYZ, 2 => rotZ ops
  | .AO_ZYX, 0 => rotZ ops
  | .AO_ZYX, 1 => rotY ops
  | .AO_ZYX, 2 => rotX ops
  | .AO_UNDEFINED _, _ => fun _ => 1

/-- The single-axis derivative formula that belongs to coordinate `i` under an axis order:
the derivative helper of the axis of `elementaryRotation`; zero under an unrecognised
order. -/
def elementaryRotationDeriv {α : Type} [CommRing α] (ops : Scalar α) :
    dynamics.AxisOrder → Fin 3 → α → Matrix3d α
  | .AO_XYZ, 0 => eulerToMatrixXDeriv ops
  | .AO_XYZ, 1 => eulerToMatrixYDeriv ops
  | .AO_XYZ, 2 => eulerToMatrixZDeriv ops
  | .AO_ZYX, 0 => eulerToMatrixZDeriv ops
  | .AO_ZYX, 1 => eulerToMatrixYDeriv ops
  | .AO_ZYX, 2 => eulerToMatrixXDeriv ops
  | .AO_UNDEFINED _, _ => fun _ => 0

end math

/-! ## The model of Eigen and the helpers of `dart/math` -/

namespace math

variable {α : Type} [CommRing α]

theorem eulerXYZToMatrix_eq_mul (ops : Scalar α) (q : Vector3d α) :
    eulerXYZToMatrix ops q = rotX ops (q 0) * rotY ops (q 1) * rotZ ops (q 2) := by
  ext a b
  fin_cases a <;> fin_cases b <;>
    simp [eulerXYZToMatrix, rotX, rotY, rotZ, Matrix.mul_apply, Fin.sum_univ_three,
      Matrix.vecHead, Matrix.vecTail]
  all_goals ring

theorem eulerZYXToMatrix_eq_mul (ops : Scalar α) (q : Vector3d α) :
    eulerZYXToMatrix ops q = rotZ ops (q 0) * rotY ops (q 1) * rotX ops (q 2) := by
  ext a b
  fin_cases a <;> fin_cases b <;>
    simp [eulerZYXToMatrix, rotX, rotY, rotZ, Matrix.mul_apply, Fin.sum_univ_three,
      Matrix.vecHead, Matrix.vecTail]
  all_goals ring

theorem rotX_zero : rotX ⟨Real.cos, Real.sin, Real.pi⟩ 0 = 1 := by
  ext a b
  fin_cases a <;> fin_cases b <;> simp [rotX, Matrix.vecHead, Matrix.vecTail]

theorem rotY_zero : rotY ⟨Real.cos, Real.sin, Real.pi⟩ 0 = 1 := by
  ext a b
  fin_cases a <;> fin_cases b <;> simp [rotY, Matrix.vecHead, Matrix.vecTail]

theorem rotZ_zero : rotZ ⟨Real.cos, Real.sin, Real.pi⟩ 0 = 1 := by
  ext a b
  fin_cases a <;> fin_cases b <;> simp [rotZ, Matrix.vecHead, Matrix.vecTail]

theorem MatHasDerivAt.mul {l m n : Type} [Fintype m] {A : ℝ → Matrix l m ℝ}
    {B : ℝ → Matrix m n ℝ} {A' : Matrix l m ℝ} {B' : Matrix m n ℝ} {t : ℝ}
    (hA : MatHasDerivAt A A' t) (hB : MatHasDerivAt B B' t) :
    MatHasDerivAt (fun s => A s * B s) (A' * B t + A t * B') t := by
  intro a b
  simp only [Matrix.mul_apply, Matrix.add_apply]
  rw [← Finset.sum_add_distrib]
  exact HasDerivAt.sum fun k _ => (hA a k).mul (hB k b)

theorem MatHasDerivAt.const_mul {l m n : Type} [Fintype m] (A : Matrix l m ℝ)
    {B : ℝ → Matrix m n ℝ} {B' : Matrix m n ℝ} {t : ℝ} (hB : MatHasDerivAt B B' t) :
    MatHasDerivAt (fun s => A * B s) (A * B') t := by
  intro a b
  simp only [Matrix.mul_apply]
  exact HasDerivAt.sum fun k _ => (hB k b).const_mul (A a k)

theorem MatHasDerivAt.mul_const {l m n : Type} [Fintype m] {A : ℝ → Matrix l m ℝ}
    {A' : Matrix l m ℝ} {t : ℝ} (hA : MatHasDerivAt A A' t) (B : Matrix m n ℝ) :
    MatHasDerivAt (fun s => A s * B) (A' * B) t := by
  intro a b
  simp only [Matrix.mul_apply]
  exact HasDerivAt.sum fun k _ => (hA a k).mul_const (B k b)

theorem rotX_hasDerivAt {θ : ℝ → ℝ} {θ' t : ℝ} (h : HasDerivAt θ θ' t) :
    MatHasDerivAt (fun s => rotX ⟨Real.cos, Real.sin, Real.pi⟩ (θ s))
      (θ' • eulerToMatrixXDeriv ⟨Real.cos, Real.sin, Real.pi⟩ (θ t)) t := by
  intro a b
  fin_cases a <;> fin_cases b <;>
    simp only [rotX, eulerToMatrixXDeriv, Matrix.smul_apply, smul_eq_mul, Matrix.of_apply,
      Matrix.cons_val_zero, Matrix.cons_val_one, Matrix.cons_val_two, Matrix.head_cons,
      Matrix.tail_cons, Matrix.vecHead, Matrix.vecTail, Fin.zero_eta, Fin.mk_one, Fin.reduceFinMk,
      Function.comp, Fin.succ_zero_eq_one, Matrix.cons_val_succ, mul_zero] <;>
    first
      | exact hasDerivAt_const _ _
      | exact h.cos.congr_deriv (by ring)
      | exact h.sin.congr_deriv (by ring)
      | exact h.sin.neg.congr_deriv (by ring)

theorem rotY_hasDerivAt {θ : ℝ → ℝ} {θ' t : ℝ} (h : HasDerivAt θ θ' t) :
    MatHasDerivAt (fun s => rotY ⟨Real.cos, Real.sin, Real.pi⟩ (θ s))
      (θ' • eulerToMatrixYDeriv ⟨Real.cos, Real.sin, Real.pi⟩ (θ t)) t := by
  intro a b
  fin_cases a <;> fin_cases b <;>
    simp only [rotY, eulerToMatrixYDeriv, Matrix.smul_apply, smul_eq_mul, Matrix.of_apply,
      Matrix.cons_val_zero, Matrix.cons_val_one, Matrix.cons_val_two, Matrix.head_cons,
      Matrix.tail_cons, Matrix.vecHead, Matrix.vecTail, Fin.zero_eta, Fin.mk_one, Fin.reduceFinMk,
      Function.comp, Fin.succ_zero_eq_one, Matrix.cons_val_succ, mul_zero] <;>
    first
      | exact hasDerivAt_const _ _
      | exact h.cos.congr_deriv (by ring)
      | exact h.sin.congr_deriv (by ring)
      | exact h.sin.neg.congr_deriv (by ring)

theorem rotZ_hasDerivAt {θ : ℝ → ℝ} {θ' t : ℝ} (h : HasDerivAt θ θ' t) :
    MatHasDerivAt (fun s => rotZ ⟨Real.cos, Real.sin, Real.pi⟩ (θ s))
      (θ' • eulerToMatrixZDeriv ⟨Real.cos, Real.sin, Real.pi⟩ (θ t)) t := by
  intro a b
  fin_cases a <;> fin_cases b <;>
    simp only [rotZ, eulerToMatrixZDeriv, Matrix.smul_apply, smul_eq_mul, Matrix.of_apply,
      Matrix.cons_val_zero, Matrix.cons_val_one, Matrix.cons_val_two, Matrix.head_cons,
      Matrix.tail_cons, Matrix.vecHead, Matrix.vecTail, Fin.zero_eta, Fin.mk_one, Fin.reduceFinMk,
      Function.comp, Fin.succ_zero_eq_one, Matrix.cons_val_succ, mul_zero] <;>
    first
      | exact hasDerivAt_const _ _
      | exact h.cos.congr_deriv (by ring)
      | exact h.sin.congr_deriv (by ring)
      | exact h.sin.neg.congr_deriv (by ring)

/-- The time derivative of the XYZ rotation along a trajectory, by the product rule. -/
theorem eulerXYZToMatrix_hasDerivAt {q : ℝ → Vector3d ℝ} {qdot : Vector3d ℝ} {t : ℝ}
    (h : VecHasDerivAt q qdot t) :
    MatHasDerivAt (fun s => eulerXYZToMatrix ⟨Real.cos, Real.sin, Real.pi⟩ (q s))
      ((qdot 0 • eulerToMatrixXDeriv ⟨Real.cos, Real.sin, Real.pi⟩ (q t 0)
            * rotY ⟨Real.cos, Real.sin, Real.pi⟩ (q t 1)
          + rotX ⟨Real.cos, Real.sin, Real.pi⟩ (q t 0)
            * qdot 1 • eulerToMatrixYDeriv ⟨Real.cos, Real.sin, Real.pi⟩ (q t 1))
          * rotZ ⟨Real.cos, Real.sin, Real.pi⟩ (q t 2)
        + rotX ⟨Real.cos, Real.sin, Real.pi⟩ (q t 0) * rotY ⟨Real.cos, Real.sin, Real.pi⟩ (q t 1)
          * qdot 2 • eulerToMatrixZDeriv ⟨Real.cos, Real.sin, Real.pi⟩ (q t 2)) t := by
  have e : (fun s => eulerXYZToMatrix ⟨Real.cos, Real.sin, Real.pi⟩ (q s))
      = fun s => rotX ⟨Real.cos, Real.sin, Real.pi⟩ (q s 0)
          * rotY ⟨Real.cos, Real.sin, Real.pi⟩ (q s 1)
          * rotZ ⟨Real.cos, Real.sin, Real.pi⟩ (q s 2) :=
    funext fun s => eulerXYZToMatrix_eq_mul _ _
  rw [e]
  exact ((rotX_hasDerivAt (h 0)).mul (rotY_hasDerivAt (h 1))).mul (rotZ_hasDerivAt (h 2))

/-- The time derivative of the ZYX rotation along a trajectory, by the product rule. -/
theorem eulerZYXToMatrix_hasDerivAt {q : ℝ → Vector3d ℝ} {qdot : Vector3d ℝ} {t : ℝ}
    (h : VecHasDerivAt q qdot t) :
    MatHasDerivAt (fun s => eulerZYXToMatrix ⟨Real.cos, Real.sin, Real.pi⟩ (q s))
      ((qdot 0 • eulerToMatrixZDeriv ⟨Real.cos, Real.sin, Real.pi⟩ (q t 0)
            * rotY ⟨Real.cos, Real.sin, Real.pi⟩ (q t 1)
          + rotZ ⟨Real.cos, Real.sin, Real.pi⟩ (q t 0)
            * qdot 1 • eulerToMatrixYDeriv ⟨Real.cos, Real.sin, Real.pi⟩ (q t 1))
          * rotX ⟨Real.cos, Real.sin, Real.pi⟩ (q t 2)
        + rotZ ⟨Real.cos, Real.sin, Real.pi⟩ (q t 0) * rotY ⟨Real.cos, Real.sin, Real.pi⟩ (q t 1)
          * qdot 2 • eulerToMatrixXDeriv ⟨Real.cos, Real.sin, Real.pi⟩ (q t 2)) t := by
  have e : (fun s => eulerZYXToMatrix ⟨Real.cos, Real.sin, Real.pi⟩ (q s))
      = fun s => rotZ ⟨Real.cos, Real.sin, Real.pi⟩ (q s 0)
          * rotY ⟨Real.cos, Real.sin, Real.pi⟩ (q s 1)
          * rotX ⟨Real.cos, Real.sin, Real.pi⟩ (q s 2) :=
    funext fun s => eulerZYXToMatrix_eq_mul _ _
  rw [e]
  exact ((rotZ_hasDerivAt (h 0)).mul (rotY_hasDerivAt (h 1))).mul (rotX_hasDerivAt (h 2))

theorem rotX_transpose_mul_self (θ : ℝ) :
    (rotX ⟨Real.cos, Real.sin, Real.pi⟩ θ)ᵀ * rotX ⟨Real.cos, Real.sin, Real.pi⟩ θ = 1 := by
  have h := Real.sin_sq_add_cos_sq θ
  ext a b
  fin_cases a <;> fin_cases b <;>
    simp [rotX, Matrix.mul_apply, Fin.sum_univ_three, Matrix.vecHead, Matrix.vecTail]
  all_goals first | ring1 | linear_combination h

theorem rotX_transpose_mul_deriv (θ : ℝ) :
    (rotX ⟨Real.cos, Real.sin, Real.pi⟩ θ)ᵀ * eulerToMatrixXDeriv ⟨Real.cos, Real.sin, Real.pi⟩ θ
      = skew ![1, 0, 0] := by
  have h := Real.sin_sq_add_cos_sq θ
  ext a b
  fin_cases a <;> fin_cases b <;>
    simp [rotX, eulerToMatrixXDeriv, skew, Matrix.mul_apply, Fin.sum_univ_three, Matrix.vecHead, Matrix.vecTail]
  all_goals first | ring1 | linear_combination h | linear_combination -h

theorem rotX_conj_skew (θ : ℝ) (w : Vector3d ℝ) :
    (rotX ⟨Real.cos, Real.sin, Real.pi⟩ θ)ᵀ * skew w * rotX ⟨Real.cos, Real.sin, Real.pi⟩ θ
      = skew ((rotX ⟨Real.cos, Real.sin, Real.pi⟩ θ)ᵀ.mulVec w) := by
  have h := Real.sin_sq_add_cos_sq θ
  ext a b
  fin_cases a <;> fin_cases b <;>
    simp [rotX, skew, Matrix.mul_apply, Matrix.mulVec, Matrix.dotProduct, Fin.sum_univ_three,
      Matrix.vecHead, Matrix.vecTail]
  all_goals first
    | ring1
    | linear_combination (w 0) * h
    | linear_combination (w 1) * h
    | linear_combination (w 2) * h
    | linear_combination (-w 0) * h

theorem rotY_transpose_mul_self (θ : ℝ) :
    (rotY ⟨Real.cos, Real.sin, Real.pi⟩ θ)ᵀ * rotY ⟨Real.cos, Real.sin, Real.pi⟩ θ = 1 := by
  have h := Real.sin_sq_add_cos_sq θ
  ext a b
  fin_cases a <;> fin_cases b <;>
    simp [rotY, Matrix.mul_apply, Fin.sum_univ_three, Matrix.vecHead, Matrix.vecTail]
  all_goals first | ring1 | linear_combination h

theorem rotY_transpose_mul_deriv (θ : ℝ) :
    (rotY ⟨Real.cos, Real.sin, Real.pi⟩ θ)ᵀ * eulerToMatrixYDeriv ⟨Real.cos, Real.sin, Real.pi⟩ θ
      = skew ![0, 1, 0] := by
  have h := Real.sin_sq_add_cos_sq θ
  ext a b
  fin_cases a <;> fin_cases b <;>
    simp [rotY, eulerToMatrixYDeriv, skew, Matrix.mul_apply, Fin.sum_univ_three, Matrix.vecHead, Matrix.vecTail]
  all_goals first | ring1 | linear_combination h | linear_combination -h

theorem rotY_conj_skew (θ : ℝ) (w : Vector3d ℝ) :
    (rotY ⟨Real.cos, Real.sin, Real.pi⟩ θ)ᵀ * skew w * rotY ⟨Real.cos, Real.sin, Real.pi⟩ θ
      = skew ((rotY ⟨Real.cos, Real.sin, Real.pi⟩ θ)ᵀ.mulVec w) := by
  have h := Real.sin_sq_add_cos_sq θ
  ext a b
  fin_cases a <;> fin_cases b <;>
    simp [rotY, skew, Matrix.mul_apply, Matrix.mulVec, Matrix.dotProduct, Fin.sum_univ_three,
      Matrix.vecHead, Matrix.vecTail]
  all_goals first
    | ring1
    | linear_combination (w 0) * h
    | linear_combination (w 1) * h
    | linear_combination (w 2) * h
    | linear_combination (-w 0) * h
    | linear_combination (-w 1) * h

theorem rotZ_transpose_mul_self (θ : ℝ) :
    (rotZ ⟨Real.cos, Real.sin, Real.pi⟩ θ)ᵀ * rotZ ⟨Real.cos, Real.sin, Real.pi⟩ θ = 1 := by
  have h := Real.sin_sq_add_cos_sq θ
  ext a b
  fin_cases a <;> fin_cases b <;>
    simp [rotZ, Matrix.mul_apply, Fin.sum_univ_three, Matrix.vecHead, Matrix.vecTail]
  all_goals first | ring1 | linear_combination h

theorem rotZ_transpose_mul_deriv (θ : ℝ) :
    (rotZ ⟨Real.cos, Real.sin, Real.pi⟩ θ)ᵀ * eulerToMatrixZDeriv ⟨Real.cos, Real.sin, Real.pi⟩ θ
      = skew ![0, 0, 1] := by
  have h := Real.sin_sq_add_cos_sq θ
  ext a b
  fin_cases a <;> fin_cases b <;>
    simp [rotZ, eulerToMatrixZDeriv, skew, Matrix.mul_apply, Fin.sum_univ_three, Matrix.vecHead, Matrix.vecTail]
  all_goals first | ring1 | linear_combination h | linear_combination -h

theorem rotZ_conj_skew (θ : ℝ) (w : Vector3d ℝ) :
    (rotZ ⟨Real.cos, Real.sin, Real.pi⟩ θ)ᵀ * skew w * rotZ ⟨Real.cos, Real.sin, Real.pi⟩ θ
      = skew ((rotZ ⟨Real.cos, Real.sin, Real.pi⟩ θ)ᵀ.mulVec w) := by
  have h := Real.sin_sq_add_cos_sq θ
  ext a b
  fin_cases a <;> fin_cases b <;>
    simp [rotZ, skew, Matrix.mul_apply, Matrix.mulVec, Matrix.dotProduct, Fin.sum_univ_three,
      Matrix.vecHead, Matrix.vecTail]
  all_goals first
    | ring1
    | linear_combination (w 0) * h
    | linear_combination (w 1) * h
    | linear_combination (w 2) * h
    | linear_combination (-w 0) * h
    | linear_combination (-w 1) * h
    | linear_combination (-w 2) * h

/-- The product rule for three orthogonal factors, multiplied by the transposed product. -/
theorem transpose_mul_product_rule (X Y Z dX dY dZ : Matrix3d ℝ) (a b c : ℝ)
    (hX : Xᵀ * X = 1) (hY : Yᵀ * Y = 1) :
    (X * Y * Z)ᵀ * ((a • dX * Y + X * b • dY) * Z + X * Y * c • dZ)
      = a • (Zᵀ * (Yᵀ * (Xᵀ * dX) * Y) * Z) + b • (Zᵀ * (Yᵀ * dY) * Z) + c • (Zᵀ * dZ) := by
  have hX' : ∀ M : Matrix3d ℝ, Xᵀ * (X * M) = M := fun M => by
    rw [← Matrix.mul_assoc, hX, Matrix.one_mul]
  have hY' : ∀ M : Matrix3d ℝ, Yᵀ * (Y * M) = M := fun M => by
    rw [← Matrix.mul_assoc, hY, Matrix.one_mul]
  simp only [Matrix.transpose_mul, Matrix.mul_add, Matrix.add_mul, Matrix.mul_smul,
    Matrix.smul_mul, Matrix.mul_assoc, hX', hY']

end math

namespace dynamics

namespace EulerJoint

open math

theorem isometry_mul_ofLinear_one {α : Type} [CommRing α] (P : Isometry3d α) :
    P.mul (Isometry3d.ofLinear 1) = P := by
  cases P
  simp [Isometry3d.mul, Isometry3d.ofLinear]

/-- C1: under XYZ and under ZYX, for every joint (coordinates and fixed offsets arbitrary),
`updateLocalTransform` stores `ParentToJoint * Rotation(q) * inverse(ChildToJoint)`, where the
rotation is `eulerXYZToMatrix(q) = Rx(q0) Ry(q1) Rz(q2)`, respectively
`eulerZYXToMatrix(q) = Rz(q0) Ry(q1) Rx(q2)`; at `q = (0, 0, 0)` the stored transform is
`ParentToJoint * inverse(ChildToJoint)`. -/
theorem updateLocalTransform_eq_composition (j : EulerJoint ℝ) :
    ((updateLocalTransform ⟨Real.cos, Real.sin, Real.pi⟩ { j with mAxisOrder := .AO_XYZ }).mT
        = (j.mT_ParentBodyToJoint.mul (Isometry3d.ofLinear
            (eulerXYZToMatrix ⟨Real.cos, Real.sin, Real.pi⟩ j.mPositions))).mul
            j.mT_ChildBodyToJoint.inverse
      ∧ eulerXYZToMatrix ⟨Real.cos, Real.sin, Real.pi⟩ j.mPositions
        = rotX ⟨Real.cos, Real.sin, Real.pi⟩ (j.mPositions 0)
          * rotY ⟨Real.cos, Real.sin, Real.pi⟩ (j.mPositions 1)
          * rotZ ⟨Real.cos, Real.sin, Real.pi⟩ (j.mPositions 2))
    ∧ ((updateLocalTransform ⟨Real.cos, Real.sin, Real.pi⟩ { j with mAxisOrder := .AO_ZYX }).mT
        = (j.mT_ParentBodyToJoint.mul (Isometry3d.ofLinear
            (eulerZYXToMatrix ⟨Real.cos, Real.sin, Real.pi⟩ j.mPositions))).mul
            j.mT_ChildBodyToJoint.inverse
      ∧ eulerZYXToMatrix ⟨Real.cos, Real.sin, Real.pi⟩ j.mPositions
        = rotZ ⟨Real.cos, Real.sin, Real.pi⟩ (j.mPositions 0)
          * rotY ⟨Real.cos, Real.sin, Real.pi⟩ (j.mPositions 1)
          * rotX ⟨Real.cos, Real.sin, Real.pi⟩ (j.mPositions 2))
    ∧ (updateLocalTransform ⟨Real.cos, Real.sin, Real.pi⟩
          { j with mAxisOrder := .AO_XYZ, mPositions := ![0, 0, 0] }).mT
        = j.mT_ParentBodyToJoint.mul j.mT_ChildBodyToJoint.inverse
    ∧ (updateLocalTransform ⟨Real.cos, Real.sin, Real.pi⟩
          { j with mAxisOrder := .AO_ZYX, mPositions := ![0, 0, 0] }).mT
        = j.mT_ParentBodyToJoint.mul j.mT_ChildBodyToJoint.inverse := by
  refine ⟨⟨rfl, eulerXYZToMatrix_eq_mul _ _⟩, ⟨rfl, eulerZYXToMatrix_eq_mul _ _⟩, ?_, ?_⟩
  · simp only [updateLocalTransform, eulerXYZToMatrix_eq_mul]
    simp [rotX_zero, rotY_zero, rotZ_zero, isometry_mul_ofLinear_one]
  · simp only [updateLocalTransform, eulerZYXToMatrix_eq_mul]
    simp [rotX_zero, rotY_zero, rotZ_zero, isometry_mul_ofLinear_one]

theorem vec6_val_five {α : Type} (a b c d e f : α) : (![a, b, c, d, e, f] : Fin 6 → α) 5 = f :=
  rfl

theorem assignAdTColumns_apply {α : Type} [CommRing α] (T : Isometry3d α) (M : Matrix63 α)
    (J : Fin 3 → Vector6d α) (r : Fin 6) (c : Fin 3) :
    assignAdTColumns T M J r c = AdT T (J c) r := by
  fin_cases c <;> simp [assignAdTColumns, Matrix.updateColumn_apply]

theorem AdT_Identity {α : Type} [CommRing α] (V : Vector6d α) :
    AdT Isometry3d.Identity V = V := by
  funext r
  fin_cases r <;>
    simp [AdT, Isometry3d.Identity, join3, head3, tail3, cross, Matrix.vecHead, Matrix.vecTail]
  all_goals rfl

/-- Along a trajectory the XYZ twists give the body angular velocity of the XYZ rotation. -/
theorem twists_XYZ_body_velocity (q qdot : Vector3d ℝ) :
    (eulerXYZToMatrix ⟨Real.cos, Real.sin, Real.pi⟩ q)ᵀ
      * ((qdot 0 • eulerToMatrixXDeriv ⟨Real.cos, Real.sin, Real.pi⟩ (q 0) * rotY ⟨Real.cos, Real.sin, Real.pi⟩ (q 1)
          + rotX ⟨Real.cos, Real.sin, Real.pi⟩ (q 0) * qdot 1 • eulerToMatrixYDeriv ⟨Real.cos, Real.sin, Real.pi⟩ (q 1))
          * rotZ ⟨Real.cos, Real.sin, Real.pi⟩ (q 2)
        + rotX ⟨Real.cos, Real.sin, Real.pi⟩ (q 0) * rotY ⟨Real.cos, Real.sin, Real.pi⟩ (q 1)
          * qdot 2 • eulerToMatrixZDeriv ⟨Real.cos, Real.sin, Real.pi⟩ (q 2))
      = skew (head3 fun r => ∑ i, localJacobianTwists ⟨Real.cos, Real.sin, Real.pi⟩ .AO_XYZ q i r * qdot i) := by
  rw [eulerXYZToMatrix_eq_mul,
    transpose_mul_product_rule _ _ _ _ _ _ _ _ _ (rotX_transpose_mul_self _)
      (rotY_transpose_mul_self _),
    rotX_transpose_mul_deriv, rotY_transpose_mul_deriv, rotZ_transpose_mul_deriv,
    rotY_conj_skew, rotZ_conj_skew, rotZ_conj_skew]
  ext a b
  fin_cases a <;> fin_cases b <;>
    simp [skew, head3, localJacobianTwists, rotY, rotZ, Matrix.mulVec, Matrix.dotProduct,
      Fin.sum_univ_three, Matrix.vecHead, Matrix.vecTail]
  all_goals ring

/-- Along a trajectory the ZYX twists give the body angular velocity of the ZYX rotation. -/
theorem twists_ZYX_body_velocity (q qdot : Vector3d ℝ) :
    (eulerZYXToMatrix ⟨Real.cos, Real.sin, Real.pi⟩ q)ᵀ
      * ((qdot 0 • eulerToMatrixZDeriv ⟨Real.cos, Real.sin, Real.pi⟩ (q 0) * rotY ⟨Real.cos, Real.sin, Real.pi⟩ (q 1)
          + rotZ ⟨Real.cos, Real.sin, Real.pi⟩ (q 0) * qdot 1 • eulerToMatrixYDeriv ⟨Real.cos, Real.sin, Real.pi⟩ (q 1))
          * rotX ⟨Real.cos, Real.sin, Real.pi⟩ (q 2)
        + rotZ ⟨Real.cos, Real.sin, Real.pi⟩ (q 0) * rotY ⟨Real.cos, Real.sin, Real.pi⟩ (q 1)
          * qdot 2 • eulerToMatrixXDeriv ⟨Real.cos, Real.sin, Real.pi⟩ (q 2))
      = skew (head3 fun r => ∑ i, localJacobianTwists ⟨Real.cos, Real.sin, Real.pi⟩ .AO_ZYX q i r * qdot i) := by
  rw [eulerZYXToMatrix_eq_mul,
    transpose_mul_product_rule _ _ _ _ _ _ _ _ _ (rotZ_transpose_mul_self _)
      (rotY_transpose_mul_self _),
    rotZ_transpose_mul_deriv, rotY_transpose_mul_deriv, rotX_transpose_mul_deriv,
    rotY_conj_skew, rotX_conj_skew, rotX_conj_skew]
  ext a b
  fin_cases a <;> fin_cases b <;>
    simp [skew, head3, localJacobianTwists, rotY, rotX, Matrix.mulVec, Matrix.dotProduct,
      Fin.sum_univ_three, Matrix.vecHead, Matrix.vecTail]
  all_goals ring

theorem update_vecHasDerivAt (q : Vector3d ℝ) (i : Fin 3) :
    VecHasDerivAt (fun x => Function.update q i x) (Pi.single i 1) (q i) := by
  intro k
  by_cases h : k = i
  · subst h
    simpa using hasDerivAt_id (q k)
  · simpa [Function.update_noteq h, Pi.single_eq_of_ne h] using hasDerivAt_const (q i) (q k)

theorem sum_mul_single (f : Fin 3 → ℝ) (i : Fin 3) :
    ∑ k, f k * (Pi.single i (1 : ℝ) : Fin 3 → ℝ) k = f i := by
  fin_cases i <;> simp [Fin.sum_univ_three, Pi.single_apply]

theorem updateLocalJacobian_mulVec (ops : Scalar ℝ) (ndebug : Bool) (j : EulerJoint ℝ)
    (qdot : Vector3d ℝ) :
    (updateLocalJacobian ops ndebug j).1.mJacobian.mulVec qdot
      = fun r => ∑ i, AdT j.mT_ChildBodyToJoint
          (localJacobianTwists ops j.mAxisOrder j.mPositions i) r * qdot i := by
  funext r
  simp [updateLocalJacobian, Matrix.mulVec, Matrix.dotProduct, assignAdTColumns_apply]

theorem tail3_twists_eq_zero (ops : Scalar ℝ) (o : AxisOrder) (q qdot : Vector3d ℝ) :
    tail3 (fun r => ∑ i, localJacobianTwists ops o q i r * qdot i) = 0 := by
  funext a
  cases o <;> fin_cases a <;>
    simp [tail3, localJacobianTwists, Fin.sum_univ_three, Matrix.vecHead, Matrix.vecTail,
      vec6_val_five]

/-- C2: for XYZ and for ZYX, the angular part of the elementary twist `J_i` of
`updateLocalJacobian` satisfies `skew(J_i.angular) = R(q)^T * dR(q)/dq_i`, where `R` is the
composed Euler rotation of the convention and the derivative is taken entry by entry; and
with an identity child offset, along every trajectory differentiable at `t` with rates
`qdot`, `Jacobian(q(t)) * qdot` has the body angular velocity `R^T * dR/dt` as angular part
and a zero linear part. -/
theorem localJacobian_is_body_angular_velocity :
    (∀ (q : Vector3d ℝ) (i : Fin 3), ∃ D : Matrix3d ℝ,
        MatHasDerivAt (fun x => eulerXYZToMatrix ⟨Real.cos, Real.sin, Real.pi⟩ (Function.update q i x)) D (q i)
        ∧ skew (head3 (localJacobianTwists ⟨Real.cos, Real.sin, Real.pi⟩ .AO_XYZ q i))
          = (eulerXYZToMatrix ⟨Real.cos, Real.sin, Real.pi⟩ q)ᵀ * D)
    ∧ (∀ (q : Vector3d ℝ) (i : Fin 3), ∃ D : Matrix3d ℝ,
        MatHasDerivAt (fun x => eulerZYXToMatrix ⟨Real.cos, Real.sin, Real.pi⟩ (Function.update q i x)) D (q i)
        ∧ skew (head3 (localJacobianTwists ⟨Real.cos, Real.sin, Real.pi⟩ .AO_ZYX q i))
          = (eulerZYXToMatrix ⟨Real.cos, Real.sin, Real.pi⟩ q)ᵀ * D)
    ∧ (∀ (j : EulerJoint ℝ) (ndebug : Bool) (q : ℝ → Vector3d ℝ) (qdot : Vector3d ℝ) (t : ℝ),
        VecHasDerivAt q qdot t →
        ∃ D : Matrix3d ℝ,
          MatHasDerivAt (fun s => eulerXYZToMatrix ⟨Real.cos, Real.sin, Real.pi⟩ (q s)) D t
          ∧ skew (head3 ((updateLocalJacobian ⟨Real.cos, Real.sin, Real.pi⟩ ndebug
              { j with mAxisOrder := .AO_XYZ, mPositions := (q t), mT_ChildBodyToJoint := Isometry3d.Identity }).1.mJacobian.mulVec qdot))
            = (eulerXYZToMatrix ⟨Real.cos, Real.sin, Real.pi⟩ (q t))ᵀ * D
          ∧ tail3 ((updateLocalJacobian ⟨Real.cos, Real.sin, Real.pi⟩ ndebug
              { j with mAxisOrder := .AO_XYZ, mPositions := (q t), mT_ChildBodyToJoint := Isometry3d.Identity }).1.mJacobian.mulVec qdot) = 0)
    ∧ (∀ (j : EulerJoint ℝ) (ndebug : Bool) (q : ℝ → Vector3d ℝ) (qdot : Vector3d ℝ) (t : ℝ),
        VecHasDerivAt q qdot t →
        ∃ D : Matrix3d ℝ,
          MatHasDerivAt (fun s => eulerZYXToMatrix ⟨Real.cos, Real.sin, Real.pi⟩ (q s)) D t
          ∧ skew (head3 ((updateLocalJacobian ⟨Real.cos, Real.sin, Real.pi⟩ ndebug
              { j with mAxisOrder := .AO_ZYX, mPositions := (q t), mT_ChildBodyToJoint := Isometry3d.Identity }).1.mJacobian.mulVec qdot))
            = (eulerZYXToMatrix ⟨Real.cos, Real.sin, Real.pi⟩ (q t))ᵀ * D
          ∧ tail3 ((updateLocalJacobian ⟨Real.cos, Real.sin, Real.pi⟩ ndebug
              { j with mAxisOrder := .AO_ZYX, mPositions := (q t), mT_ChildBodyToJoint := Isometry3d.Identity }).1.mJacobian.mulVec qdot) = 0) := by
  refine ⟨?_, ?_, ?_, ?_⟩
  · intro q i
    refine ⟨_, eulerXYZToMatrix_hasDerivAt (update_vecHasDerivAt q i), ?_⟩
    have h := twists_XYZ_body_velocity q (Pi.single i 1)
    have e : (fun r => ∑ k, localJacobianTwists ⟨Real.cos, Real.sin, Real.pi⟩ .AO_XYZ q k r
        * (Pi.single i (1 : ℝ) : Fin 3 → ℝ) k)
        = localJacobianTwists ⟨Real.cos, Real.sin, Real.pi⟩ .AO_XYZ q i :=
      funext fun r => sum_mul_single _ i
    simp only [Function.update_eq_self] at h ⊢
    rw [h, e]
  · intro q i
    refine ⟨_, eulerZYXToMatrix_hasDerivAt (update_vecHasDerivAt q i), ?_⟩
    have h := twists_ZYX_body_velocity q (Pi.single i 1)
    have e : (fun r => ∑ k, localJacobianTwists ⟨Real.cos, Real.sin, Real.pi⟩ .AO_ZYX q k r
        * (Pi.single i (1 : ℝ) : Fin 3 → ℝ) k)
        = localJacobianTwists ⟨Real.cos, Real.sin, Real.pi⟩ .AO_ZYX q i :=
      funext fun r => sum_mul_single _ i
    simp only [Function.update_eq_self] at h ⊢
    rw [h, e]
  · intro j ndebug q qdot t hq
    refine ⟨_, eulerXYZToMatrix_hasDerivAt hq, ?_, ?_⟩
    · rw [twists_XYZ_body_velocity, updateLocalJacobian_mulVec]
      simp only [AdT_Identity]
    · rw [updateLocalJacobian_mulVec]
      simp only [AdT_Identity]
      exact tail3_twists_eq_zero _ _ _ _
  · intro j ndebug q qdot t hq
    refine ⟨_, eulerZYXToMatrix_hasDerivAt hq, ?_, ?_⟩
    · rw [twists_ZYX_body_velocity, updateLocalJacobian_mulVec]
      simp only [AdT_Identity]
    · rw [updateLocalJacobian_mulVec]
      simp only [AdT_Identity]
      exact tail3_twists_eq_zero _ _ _ _

/-- The statement of `localJacobian_is_body_angular_velocity` on the trajectory
`q(s) = (s, s, s)` at `t = 0`, whose rates are `(1, 1, 1)`, for the joint at rest. -/
theorem localJacobian_is_body_angular_velocity_witness :
    VecHasDerivAt (fun (s : ℝ) (_ : Fin 3) => s) (fun _ => 1) 0
    ∧ ∃ D : Matrix3d ℝ,
          MatHasDerivAt (fun s => eulerXYZToMatrix ⟨Real.cos, Real.sin, Real.pi⟩ ((fun (s : ℝ) (_ : Fin 3) => s) s)) D 0
          ∧ skew (head3 ((updateLocalJacobian ⟨Real.cos, Real.sin, Real.pi⟩ true
              { restJoint with mAxisOrder := .AO_XYZ, mPositions := ((fun (s : ℝ) (_ : Fin 3) => s) 0), mT_ChildBodyToJoint := Isometry3d.Identity }).1.mJacobian.mulVec (fun _ => 1)))
            = (eulerXYZToMatrix ⟨Real.cos, Real.sin, Real.pi⟩ ((fun (s : ℝ) (_ : Fin 3) => s) 0))ᵀ * D
          ∧ tail3 ((updateLocalJacobian ⟨Real.cos, Real.sin, Real.pi⟩ true
              { restJoint with mAxisOrder := .AO_XYZ, mPositions := ((fun (s : ℝ) (_ : Fin 3) => s) 0), mT_ChildBodyToJoint := Isometry3d.Identity }).1.mJacobian.mulVec (fun _ => 1)) = 0 :=
  ⟨fun _ => hasDerivAt_id 0,
    localJacobian_is_body_angular_velocity.2.2.1 restJoint true (fun s _ => s) (fun _ => 1) 0
      (fun _ => hasDerivAt_id 0)⟩

theorem AdT_apply_sum {α : Type} [CommRing α] (T : Isometry3d α) (V : Vector6d α) (r : Fin 6) :
    AdT T V r = ∑ k, AdT T (Pi.single k 1) r * V k := by
  fin_cases r <;>
    simp [AdT, join3, head3, tail3, cross, Matrix.mulVec, Matrix.dotProduct, Fin.sum_univ_three,
      Fin.sum_univ_six, Pi.single_apply, Matrix.vecHead, Matrix.vecTail, vec6_val_five]
  all_goals ring

theorem AdT_vecHasDerivAt (T : Isometry3d ℝ) {V : ℝ → Vector6d ℝ} {V' : Vector6d ℝ} {t : ℝ}
    (h : VecHasDerivAt V V' t) : VecHasDerivAt (fun s => AdT T (V s)) (AdT T V') t := by
  intro r
  have e : (fun s => AdT T (V s) r) = fun s => ∑ k, AdT T (Pi.single k 1) r * V s k :=
    funext fun s => AdT_apply_sum T (V s) r
  rw [e, AdT_apply_sum T V' r]
  exact HasDerivAt.sum fun k _ => (h k).const_mul _

theorem localJacobianTwists_vecHasDerivAt (o : AxisOrder) {q : ℝ → Vector3d ℝ}
    {dq : Vector3d ℝ} {t : ℝ} (h : VecHasDerivAt q dq t) (i : Fin 3) :
    VecHasDerivAt (fun s => localJacobianTwists ⟨Real.cos, Real.sin, Real.pi⟩ o (q s) i)
      (localJacobianTimeDerivTwists ⟨Real.cos, Real.sin, Real.pi⟩ o (q t) dq i) t := by
  have h1 := h 1
  have h2 := h 2
  intro r
  cases o <;> fin_cases i <;> fin_cases r <;>
    simp only [localJacobianTwists, localJacobianTimeDerivTwists, Matrix.cons_val_zero,
      Matrix.cons_val_one, Matrix.cons_val_two, Matrix.cons_val_three, Matrix.cons_val_four,
      Matrix.head_cons, Matrix.tail_cons, Fin.zero_eta, Fin.mk_one, Fin.reduceFinMk,
      vec6_val_five, Pi.zero_apply] <;>
    first
      | exact hasDerivAt_const _ _
      | exact h1.sin.congr_deriv (by ring)
      | exact h1.sin.neg.congr_deriv (by ring)
      | exact h2.sin.congr_deriv (by ring)
      | exact h2.sin.neg.congr_deriv (by ring)
      | exact h2.cos.congr_deriv (by ring)
      | exact (h1.cos.mul h2.cos).congr_deriv (by ring)
      | exact (h1.cos.mul h2.sin).neg.congr_deriv (by ring)
      | exact (h2.sin.mul h1.cos).congr_deriv (by ring)

theorem localJacobianTimeDerivTwists_linear (ops : Scalar ℝ) (o : AxisOrder)
    (q dq : Vector3d ℝ) (i : Fin 3) (r : Fin 6) :
    localJacobianTimeDerivTwists ops o q dq i r
      = localJacobianTimeDerivTwists ops o q (Pi.single 1 1) i r * dq 1
        + localJacobianTimeDerivTwists ops o q (Pi.single 2 1) i r * dq 2 := by
  cases o <;> fin_cases i <;> fin_cases r <;>
    simp [localJacobianTimeDerivTwists, Pi.single_apply, Matrix.vecHead, Matrix.vecTail,
      vec6_val_five]
  all_goals ring

/-- C3: for every axis order (XYZ and ZYX in particular), all coordinates and all rates,
each elementary twist `dJ_i` of `updateLocalJacobianTimeDeriv` is the time derivative of the
twist `J_i` of `updateLocalJacobian` along every trajectory with those rates; entry by entry
it is `(dJ_i/dq1) * dq1 + (dJ_i/dq2) * dq2`; and for every constant child offset the stored
`mJacobianDeriv` is the time derivative of the stored `mJacobian`. -/
theorem jacobianTimeDeriv_is_time_derivative (o : AxisOrder) :
    (∀ (q : ℝ → Vector3d ℝ) (dq : Vector3d ℝ) (t : ℝ), VecHasDerivAt q dq t → ∀ i : Fin 3,
        VecHasDerivAt (fun s => localJacobianTwists ⟨Real.cos, Real.sin, Real.pi⟩ o (q s) i)
          (localJacobianTimeDerivTwists ⟨Real.cos, Real.sin, Real.pi⟩ o (q t) dq i) t)
    ∧ (∀ (q dq : Vector3d ℝ) (i : Fin 3) (r : Fin 6), ∃ p1 p2 : ℝ,
        HasDerivAt (fun x => localJacobianTwists ⟨Real.cos, Real.sin, Real.pi⟩ o (Function.update q 1 x) i r) p1 (q 1)
        ∧ HasDerivAt (fun x => localJacobianTwists ⟨Real.cos, Real.sin, Real.pi⟩ o (Function.update q 2 x) i r) p2 (q 2)
        ∧ localJacobianTimeDerivTwists ⟨Real.cos, Real.sin, Real.pi⟩ o q dq i r = p1 * dq 1 + p2 * dq 2)
    ∧ (∀ (j : EulerJoint ℝ) (ndebug : Bool) (q : ℝ → Vector3d ℝ) (dq : Vector3d ℝ) (t : ℝ),
        VecHasDerivAt q dq t →
        MatHasDerivAt
          (fun s => (updateLocalJacobian ⟨Real.cos, Real.sin, Real.pi⟩ ndebug
            { j with mAxisOrder := o, mPositions := q s }).1.mJacobian)
          (updateLocalJacobianTimeDeriv ⟨Real.cos, Real.sin, Real.pi⟩
            { j with mAxisOrder := o, mPositions := q t, mVelocities := dq }).mJacobianDeriv
          t) := by
  refine ⟨fun q dq t h i => localJacobianTwists_vecHasDerivAt o h i, ?_, ?_⟩
  · intro q dq i r
    have h1 := localJacobianTwists_vecHasDerivAt o (update_vecHasDerivAt q 1) i r
    have h2 := localJacobianTwists_vecHasDerivAt o (update_vecHasDerivAt q 2) i r
    simp only [Function.update_eq_self] at h1 h2
    exact ⟨_, _, h1, h2, localJacobianTimeDerivTwists_linear _ o q dq i r⟩
  · intro j ndebug q dq t h a b
    simp only [updateLocalJacobian, updateLocalJacobianTimeDeriv, assignAdTColumns_apply]
    exact AdT_vecHasDerivAt _ (localJacobianTwists_vecHasDerivAt o h b) a

/-- The statement of `jacobianTimeDeriv_is_time_derivative` under ZYX on the trajectory
`q(s) = (s, s, s)` at `t = 0`, whose rates are `(1, 1, 1)`, for the joint at rest. -/
theorem jacobianTimeDeriv_is_time_derivative_witness :
    VecHasDerivAt (fun (s : ℝ) (_ : Fin 3) => s) (fun _ => 1) 0
    ∧ MatHasDerivAt
          (fun s => (updateLocalJacobian ⟨Real.cos, Real.sin, Real.pi⟩ true
            { restJoint with mAxisOrder := .AO_ZYX, mPositions := (fun (s : ℝ) (_ : Fin 3) => s) s }).1.mJacobian)
          (updateLocalJacobianTimeDeriv ⟨Real.cos, Real.sin, Real.pi⟩
            { restJoint with mAxisOrder := .AO_ZYX, mPositions := (fun (s : ℝ) (_ : Fin 3) => s) 0, mVelocities := (fun _ => 1) }).mJacobianDeriv
          0 :=
  ⟨fun _ => hasDerivAt_id 0,
    (jacobianTimeDeriv_is_time_derivative .AO_ZYX).2.2 restJoint true (fun s _ => s)
      (fun _ => 1) 0 (fun _ => hasDerivAt_id 0)⟩

theorem eulerXYZToMatrix_single (i : Fin 3) (x : ℝ) :
    eulerXYZToMatrix ⟨Real.cos, Real.sin, Real.pi⟩ (Function.update 0 i x) = elementaryRotation ⟨Real.cos, Real.sin, Real.pi⟩ .AO_XYZ i x := by
  fin_cases i <;> ext a b <;> fin_cases a <;> fin_cases b <;>
    simp [eulerXYZToMatrix, elementaryRotation, rotX, rotY, rotZ, Function.update,
      Matrix.vecHead, Matrix.vecTail]

theorem eulerZYXToMatrix_single (i : Fin 3) (x : ℝ) :
    eulerZYXToMatrix ⟨Real.cos, Real.sin, Real.pi⟩ (Function.update 0 i x) = elementaryRotation ⟨Real.cos, Real.sin, Real.pi⟩ .AO_ZYX i x := by
  fin_cases i <;> ext a b <;> fin_cases a <;> fin_cases b <;>
    simp [eulerZYXToMatrix, elementaryRotation, rotX, rotY, rotZ, Function.update,
      Matrix.vecHead, Matrix.vecTail]

theorem getTransform_eq (ndebug : Bool) (j : EulerJoint ℝ) (i : Fin 3) :
    getTransform ⟨Real.cos, Real.sin, Real.pi⟩ ndebug j i.val
      = .ok (Isometry3d.ofLinear (elementaryRotation ⟨Real.cos, Real.sin, Real.pi⟩ j.mAxisOrder i (j.mPositions i))) := by
  obtain ⟨n, o, q, dq, P, C, T, J, dJ⟩ := j
  cases o <;> fin_cases i <;> cases ndebug <;>
    simp [getTransform, eulerXYZToMatrix_single, eulerZYXToMatrix_single, elementaryRotation,
      Isometry3d.Identity, Isometry3d.ofLinear]

theorem getTransformDerivative_eq {α : Type} [CommRing α] (ops : Scalar α) (ndebug : Bool)
    (j : EulerJoint α) (i : Fin 3) :
    getTransformDerivative ops ndebug j i.val
      = .ok (topLeftCorner3 (elementaryRotationDeriv ops j.mAxisOrder i (j.mPositions i))) := by
  obtain ⟨n, o, q, dq, P, C, T, J, dJ⟩ := j
  cases o <;> fin_cases i <;> cases ndebug <;>
    simp [getTransformDerivative, elementaryRotationDeriv]
  all_goals (funext a b; simp [topLeftCorner3])

theorem elementaryRotation_hasDerivAt (o : AxisOrder) (i : Fin 3) {θ : ℝ → ℝ} {θ' t : ℝ}
    (h : HasDerivAt θ θ' t) :
    MatHasDerivAt (fun s => elementaryRotation ⟨Real.cos, Real.sin, Real.pi⟩ o i (θ s))
      (θ' • elementaryRotationDeriv ⟨Real.cos, Real.sin, Real.pi⟩ o i (θ t)) t := by
  cases o <;> fin_cases i <;>
    first
      | exact rotX_hasDerivAt h
      | exact rotY_hasDerivAt h
      | exact rotZ_hasDerivAt h
      | (intro a b
         simpa [elementaryRotation, elementaryRotationDeriv] using hasDerivAt_const t _)

theorem topLeftCorner3_castSucc {α : Type} [Zero α] (M : Matrix3d α) (a b : Fin 3) :
    topLeftCorner3 M a.castSucc b.castSucc = M a b := by
  simp [topLeftCorner3]

theorem topLeftCorner3_last {α : Type} [Zero α] (M : Matrix3d α) (a : Fin 4) :
    topLeftCorner3 M a 3 = 0 ∧ topLeftCorner3 M 3 a = 0 := by
  have h3 : ((3 : Fin 4) : ℕ) = 3 := rfl
  constructor <;> simp [topLeftCorner3, h3]

/-- C5: for every axis order (XYZ and ZYX in particular) and every index `i` in 0..2,
`getTransform(i)` is the elementary rotation of the axis that belongs to `i` (x, y, z under
XYZ and z, y, x under ZYX) by the angle `q_i`; the top-left 3x3 block of
`getTransformDerivative(i)` is the derivative of that rotation block with respect to `q_i`;
the last column and the last row of `getTransformDerivative(i)` are zero; and the result
stays the same when the other two coordinates are replaced by arbitrary values. -/
theorem getTransformDerivative_single_axis (j : EulerJoint ℝ) (ndebug : Bool) (i : Fin 3) :
    (∀ x : ℝ, getTransform ⟨Real.cos, Real.sin, Real.pi⟩ ndebug
        { j with mPositions := Function.update j.mPositions i x } i.val
      = .ok (Isometry3d.ofLinear (elementaryRotation ⟨Real.cos, Real.sin, Real.pi⟩ j.mAxisOrder i x)))
    ∧ ∃ D : Matrix4d ℝ,
        getTransformDerivative ⟨Real.cos, Real.sin, Real.pi⟩ ndebug j i.val = .ok D
        ∧ (∀ a b : Fin 3,
            HasDerivAt (fun x => elementaryRotation ⟨Real.cos, Real.sin, Real.pi⟩ j.mAxisOrder i x a b)
              (D a.castSucc b.castSucc) (j.mPositions i))
        ∧ (∀ a : Fin 4, D a 3 = 0 ∧ D 3 a = 0)
        ∧ (∀ q' : Vector3d ℝ, getTransformDerivative ⟨Real.cos, Real.sin, Real.pi⟩ ndebug
            { j with mPositions := Function.update q' i (j.mPositions i) } i.val = .ok D) := by
  refine ⟨fun x => ?_, _, getTransformDerivative_eq _ ndebug j i, ?_, ?_, ?_⟩
  · rw [getTransform_eq]
    simp
  · intro a b
    rw [topLeftCorner3_castSucc]
    simpa using elementaryRotation_hasDerivAt j.mAxisOrder i (hasDerivAt_id (j.mPositions i)) a b
  · exact fun a => topLeftCorner3_last _ a
  · intro q'
    rw [getTransformDerivative_eq]
    simp

theorem fin4_val_three : ((3 : Fin 4) : ℕ) = 3 := rfl

theorem isometry_matrix_mul {α : Type} [CommRing α] (a b : Isometry3d α) :
    (a.mul b).matrix = a.matrix * b.matrix := by
  ext r c
  fin_cases r <;> fin_cases c <;>
    simp [Isometry3d.matrix, Isometry3d.mul, Matrix.mul_apply, Fin.sum_univ_four, Matrix.mulVec,
      Matrix.dotProduct, Fin.sum_univ_three, fin4_val_three]

theorem isometry_ofLinear_mul {α : Type} [CommRing α] (A B : Matrix3d α) :
    Isometry3d.ofLinear (A * B) = (Isometry3d.ofLinear A).mul (Isometry3d.ofLinear B) := by
  simp [Isometry3d.ofLinear, Isometry3d.mul]

theorem ofLinear_matrix_hasDerivAt {M : ℝ → Matrix3d ℝ} {M' : Matrix3d ℝ} {t : ℝ}
    (h : MatHasDerivAt M M' t) :
    MatHasDerivAt (fun s => (Isometry3d.ofLinear (M s)).matrix) (topLeftCorner3 M') t := by
  intro a b
  simp only [Isometry3d.matrix, Isometry3d.ofLinear, topLeftCorner3]
  by_cases ha : a.val < 3 <;> by_cases hb : b.val < 3 <;> simp only [ha, hb, dite_true,
    dite_false, if_true, if_false, Pi.zero_apply]
  · exact h _ _
  all_goals exact hasDerivAt_const _ _

theorem updateLocalTransform_matrix (j : EulerJoint ℝ) (o : AxisOrder)
    (ho : o = .AO_XYZ ∨ o = .AO_ZYX) (q : Vector3d ℝ) :
    (updateLocalTransform ⟨Real.cos, Real.sin, Real.pi⟩ { j with mAxisOrder := o, mPositions := q }).mT.matrix
      = j.mT_ParentBodyToJoint.matrix
        * ((Isometry3d.ofLinear (elementaryRotation ⟨Real.cos, Real.sin, Real.pi⟩ o 0 (q 0))).matrix
          * (Isometry3d.ofLinear (elementaryRotation ⟨Real.cos, Real.sin, Real.pi⟩ o 1 (q 1))).matrix
          * (Isometry3d.ofLinear (elementaryRotation ⟨Real.cos, Real.sin, Real.pi⟩ o 2 (q 2))).matrix)
        * j.mT_ChildBodyToJoint.inverse.matrix := by
  rcases ho with rfl | rfl
  · simp only [updateLocalTransform, eulerXYZToMatrix_eq_mul, isometry_matrix_mul,
      isometry_ofLinear_mul, elementaryRotation]
  · simp only [updateLocalTransform, eulerZYXToMatrix_eq_mul, isometry_matrix_mul,
      isometry_ofLinear_mul, elementaryRotation]

theorem updateLocalTransform_hasDerivAt (j : EulerJoint ℝ) (o : AxisOrder)
    (ho : o = .AO_XYZ ∨ o = .AO_ZYX) (i : Fin 3) :
    MatHasDerivAt
      (fun x => (updateLocalTransform ⟨Real.cos, Real.sin, Real.pi⟩
        { j with mAxisOrder := o, mPositions := Function.update j.mPositions i x }).mT.matrix)
      (j.mT_ParentBodyToJoint.matrix
        * (if i = 0 then topLeftCorner3 (elementaryRotationDeriv ⟨Real.cos, Real.sin, Real.pi⟩ o i (j.mPositions i))
            else (Isometry3d.ofLinear (elementaryRotation ⟨Real.cos, Real.sin, Real.pi⟩ o 0 (j.mPositions 0))).matrix)
        * (if i = 1 then topLeftCorner3 (elementaryRotationDeriv ⟨Real.cos, Real.sin, Real.pi⟩ o i (j.mPositions i))
            else (Isometry3d.ofLinear (elementaryRotation ⟨Real.cos, Real.sin, Real.pi⟩ o 1 (j.mPositions 1))).matrix)
        * (if i = 2 then topLeftCorner3 (elementaryRotationDeriv ⟨Real.cos, Real.sin, Real.pi⟩ o i (j.mPositions i))
            else (Isometry3d.ofLinear (elementaryRotation ⟨Real.cos, Real.sin, Real.pi⟩ o 2 (j.mPositions 2))).matrix)
        * j.mT_ChildBodyToJoint.inverse.matrix)
      (j.mPositions i) := by
  have h := ofLinear_matrix_hasDerivAt
    (elementaryRotation_hasDerivAt o i (hasDerivAt_id (j.mPositions i)))
  simp only [id, one_smul] at h
  simp only [updateLocalTransform_matrix j o ho]
  fin_cases i
  · have h' := (((h.mul_const (Isometry3d.ofLinear (elementaryRotation ⟨Real.cos, Real.sin, Real.pi⟩ o 1 (j.mPositions 1))).matrix).mul_const
      (Isometry3d.ofLinear (elementaryRotation ⟨Real.cos, Real.sin, Real.pi⟩ o 2 (j.mPositions 2))).matrix).const_mul
      j.mT_ParentBodyToJoint.matrix).mul_const j.mT_ChildBodyToJoint.inverse.matrix
    simpa [Function.update, Matrix.mul_assoc] using h'
  · have h' := (((h.const_mul (Isometry3d.ofLinear (elementaryRotation ⟨Real.cos, Real.sin, Real.pi⟩ o 0 (j.mPositions 0))).matrix).mul_const
      (Isometry3d.ofLinear (elementaryRotation ⟨Real.cos, Real.sin, Real.pi⟩ o 2 (j.mPositions 2))).matrix).const_mul
      j.mT_ParentBodyToJoint.matrix).mul_const j.mT_ChildBodyToJoint.inverse.matrix
    simpa [Function.update, Matrix.mul_assoc] using h'
  · have h' := ((h.const_mul ((Isometry3d.ofLinear (elementaryRotation ⟨Real.cos, Real.sin, Real.pi⟩ o 0 (j.mPositions 0))).matrix
      * (Isometry3d.ofLinear (elementaryRotation ⟨Real.cos, Real.sin, Real.pi⟩ o 1 (j.mPositions 1))).matrix)).const_mul
      j.mT_ParentBodyToJoint.matrix).mul_const j.mT_ChildBodyToJoint.inverse.matrix
    simpa [Function.update, Matrix.mul_assoc] using h'

theorem isometry_identity_matrix {α : Type} [CommRing α] :
    (Isometry3d.Identity : Isometry3d α).matrix = 1 := by
  ext r c
  fin_cases r <;> fin_cases c <;> simp [Isometry3d.matrix, Isometry3d.Identity, fin4_val_three]

theorem isometry_identity_inverse {α : Type} [CommRing α] :
    (Isometry3d.Identity : Isometry3d α).inverse = Isometry3d.Identity := by
  simp [Isometry3d.inverse, Isometry3d.Identity]

theorem elementaryRotation_zero (o : AxisOrder) (k : Fin 3) :
    elementaryRotation ⟨Real.cos, Real.sin, Real.pi⟩ o k 0 = 1 := by
  cases o <;> fin_cases k <;> simp [elementaryRotation, rotX_zero, rotY_zero, rotZ_zero]

theorem updateLocalTransform_hasDerivAt_single (j : EulerJoint ℝ) (o : AxisOrder)
    (ho : o = .AO_XYZ ∨ o = .AO_ZYX) (i : Fin 3) (x : ℝ) :
    MatHasDerivAt
      (fun y => (updateLocalTransform ⟨Real.cos, Real.sin, Real.pi⟩
        { j with mAxisOrder := o, mPositions := Function.update 0 i y, mT_ParentBodyToJoint := Isometry3d.Identity, mT_ChildBodyToJoint := Isometry3d.Identity }).mT.matrix)
      (topLeftCorner3 (elementaryRotationDeriv ⟨Real.cos, Real.sin, Real.pi⟩ o i x)) x := by
  have h := updateLocalTransform_hasDerivAt
    { j with mPositions := Function.update 0 i x, mT_ParentBodyToJoint := Isometry3d.Identity, mT_ChildBodyToJoint := Isometry3d.Identity }
    o ho i
  have e1 : (Isometry3d.ofLinear (1 : Matrix3d ℝ)).matrix = 1 := isometry_identity_matrix
  simp only [Function.update_idem, Function.update_same] at h
  fin_cases i <;>
    simpa [Function.update, elementaryRotation_zero, isometry_identity_matrix,
      isometry_identity_inverse, e1] using h

/-- C4 as amended: under XYZ and under ZYX, for every index `i` in 0..2, all coordinates and
all fixed offsets, the partial derivative with respect to coordinate `i` of the 4x4 matrix of
the local transform computed by `updateLocalTransform` is
`ParentToJoint * F_0 * F_1 * F_2 * inverse(ChildToJoint)`, where `F_i` is
`getTransformDerivative(i)` and `F_k` is `getTransform(k)` for the other two indices; when
both offsets are the identity and the other two coordinates are 0, that derivative is
`getTransformDerivative(i)` itself. -/
theorem transform_coordinate_derivative (j : EulerJoint ℝ) (ndebug : Bool) (i : Fin 3) :
    (∃ (G : Fin 3 → Isometry3d ℝ) (D : Matrix4d ℝ),
        (∀ k : Fin 3, getTransform ⟨Real.cos, Real.sin, Real.pi⟩ ndebug { j with mAxisOrder := .AO_XYZ } k.val = .ok (G k))
        ∧ getTransformDerivative ⟨Real.cos, Real.sin, Real.pi⟩ ndebug { j with mAxisOrder := .AO_XYZ } i.val = .ok D
        ∧ MatHasDerivAt
            (fun x => (updateLocalTransform ⟨Real.cos, Real.sin, Real.pi⟩
              { j with mAxisOrder := .AO_XYZ, mPositions := Function.update j.mPositions i x }).mT.matrix)
            (j.mT_ParentBodyToJoint.matrix
              * (if i = 0 then D else (G 0).matrix)
              * (if i = 1 then D else (G 1).matrix)
              * (if i = 2 then D else (G 2).matrix)
              * j.mT_ChildBodyToJoint.inverse.matrix)
            (j.mPositions i))
    ∧ (∃ (G : Fin 3 → Isometry3d ℝ) (D : Matrix4d ℝ),
        (∀ k : Fin 3, getTransform ⟨Real.cos, Real.sin, Real.pi⟩ ndebug { j with mAxisOrder := .AO_ZYX } k.val = .ok (G k))
        ∧ getTransformDerivative ⟨Real.cos, Real.sin, Real.pi⟩ ndebug { j with mAxisOrder := .AO_ZYX } i.val = .ok D
        ∧ MatHasDerivAt
            (fun x => (updateLocalTransform ⟨Real.cos, Real.sin, Real.pi⟩
              { j with mAxisOrder := .AO_ZYX, mPositions := Function.update j.mPositions i x }).mT.matrix)
            (j.mT_ParentBodyToJoint.matrix
              * (if i = 0 then D else (G 0).matrix)
              * (if i = 1 then D else (G 1).matrix)
              * (if i = 2 then D else (G 2).matrix)
              * j.mT_ChildBodyToJoint.inverse.matrix)
            (j.mPositions i))
    ∧ (∀ x : ℝ, ∃ D : Matrix4d ℝ,
        getTransformDerivative ⟨Real.cos, Real.sin, Real.pi⟩ ndebug
          { j with mAxisOrder := .AO_XYZ, mPositions := Function.update 0 i x } i.val = .ok D
        ∧ MatHasDerivAt
            (fun y => (updateLocalTransform ⟨Real.cos, Real.sin, Real.pi⟩
              { j with mAxisOrder := .AO_XYZ, mPositions := Function.update 0 i y, mT_ParentBodyToJoint := Isometry3d.Identity, mT_ChildBodyToJoint := Isometry3d.Identity }).mT.matrix)
            D x)
    ∧ (∀ x : ℝ, ∃ D : Matrix4d ℝ,
        getTransformDerivative ⟨Real.cos, Real.sin, Real.pi⟩ ndebug
          { j with mAxisOrder := .AO_ZYX, mPositions := Function.update 0 i x } i.val = .ok D
        ∧ MatHasDerivAt
            (fun y => (updateLocalTransform ⟨Real.cos, Real.sin, Real.pi⟩
              { j with mAxisOrder := .AO_ZYX, mPositions := Function.update 0 i y, mT_ParentBodyToJoint := Isometry3d.Identity, mT_ChildBodyToJoint := Isometry3d.Identity }).mT.matrix)
            D x) := by
  refine ⟨?_, ?_, fun x => ?_, fun x => ?_⟩
  · exact ⟨fun k => Isometry3d.ofLinear
        (elementaryRotation ⟨Real.cos, Real.sin, Real.pi⟩ .AO_XYZ k (j.mPositions k)),
      topLeftCorner3 (elementaryRotationDeriv ⟨Real.cos, Real.sin, Real.pi⟩ .AO_XYZ i (j.mPositions i)),
      fun k => getTransform_eq ndebug _ k, getTransformDerivative_eq _ ndebug _ i,
      updateLocalTransform_hasDerivAt j .AO_XYZ (Or.inl rfl) i⟩
  · exact ⟨fun k => Isometry3d.ofLinear
        (elementaryRotation ⟨Real.cos, Real.sin, Real.pi⟩ .AO_ZYX k (j.mPositions k)),
      topLeftCorner3 (elementaryRotationDeriv ⟨Real.cos, Real.sin, Real.pi⟩ .AO_ZYX i (j.mPositions i)),
      fun k => getTransform_eq ndebug _ k, getTransformDerivative_eq _ ndebug _ i,
      updateLocalTransform_hasDerivAt j .AO_ZYX (Or.inr rfl) i⟩
  · refine ⟨_, getTransformDerivative_eq _ ndebug _ i, ?_⟩
    simpa using updateLocalTransform_hasDerivAt_single j .AO_XYZ (Or.inl rfl) i x
  · refine ⟨_, getTransformDerivative_eq _ ndebug _ i, ?_⟩
    simpa using updateLocalTransform_hasDerivAt_single j .AO_ZYX (Or.inr rfl) i x

/-- C4 fails as stated: under XYZ with identity offsets at `q = (0, pi, 0)`, the matrix
returned by `getTransformDerivative(0)` is not the partial derivative of the local transform
with respect to coordinate 0: entry (1, 2) of the transform is `sin x` as a function of
coordinate 0, with derivative 1 at 0, while the returned entry is -1. -/
theorem getTransformDerivative_ne_coordinate_derivative :
    ¬ ∀ D : Matrix4d ℝ,
      getTransformDerivative ⟨Real.cos, Real.sin, Real.pi⟩ true
          { (restJoint : EulerJoint ℝ) with mPositions := ![0, Real.pi, 0] } 0 = .ok D →
      MatHasDerivAt
        (fun x => (updateLocalTransform ⟨Real.cos, Real.sin, Real.pi⟩
          { (restJoint : EulerJoint ℝ) with
            mPositions := Function.update ![0, Real.pi, 0] 0 x }).mT.matrix) D 0 := by
  intro h
  have h12 := h _ (getTransformDerivative_eq ⟨Real.cos, Real.sin, Real.pi⟩ true
    { (restJoint : EulerJoint ℝ) with mPositions := ![0, Real.pi, 0] } 0) 1 2
  have e : (fun x => (updateLocalTransform ⟨Real.cos, Real.sin, Real.pi⟩
      { (restJoint : EulerJoint ℝ) with
        mPositions := Function.update ![0, Real.pi, 0] 0 x }).mT.matrix 1 2) = Real.sin := by
    funext x
    simp [updateLocalTransform, restJoint, Isometry3d.mul, Isometry3d.inverse,
      Isometry3d.Identity, Isometry3d.ofLinear, Isometry3d.matrix, eulerXYZToMatrix,
      Function.update, Matrix.vecHead, Matrix.vecTail]
  rw [e] at h12
  have h1 := h12.unique (Real.hasDerivAt_sin 0)
  simp [restJoint, elementaryRotationDeriv, eulerToMatrixXDeriv, topLeftCorner3,
    Matrix.vecHead, Matrix.vecTail] at h1
  norm_num at h1

theorem AdT_zero {α : Type} [CommRing α] (T : Isometry3d α) : AdT T 0 = 0 := by
  funext r
  rw [AdT_apply_sum]
  simp

theorem assignAdTColumns_mulVec {α : Type} [CommRing α] (T : Isometry3d α) (M : Matrix63 α)
    (J : Fin 3 → Vector6d α) (v : Vector3d α) :
    (assignAdTColumns T M J).mulVec v = AdT T (fun k => ∑ c, J c k * v c) := by
  funext r
  have e : ∀ c, AdT T (J c) r = ∑ k, AdT T (Pi.single k 1) r * J c k :=
    fun c => AdT_apply_sum T (J c) r
  rw [AdT_apply_sum T (fun k => ∑ c, J c k * v c) r]
  simp only [Matrix.mulVec, Matrix.dotProduct, assignAdTColumns_apply, e, Finset.sum_mul,
    Finset.mul_sum]
  rw [Finset.sum_comm]
  exact Finset.sum_congr rfl fun k _ => Finset.sum_congr rfl fun c _ => by ring

/-- When the twists are linearly dependent, so are the columns of the stored Jacobian, and
the determinant of `J^T J` vanishes, whatever the child offset. -/
theorem det_transpose_mul_self_eq_zero (T : Isometry3d ℝ) (M : Matrix63 ℝ)
    (J : Fin 3 → Vector6d ℝ) (v : Vector3d ℝ) (hv : v ≠ 0)
    (h : (fun k => ∑ c, J c k * v c) = 0) :
    ((assignAdTColumns T M J)ᵀ * assignAdTColumns T M J).det = 0 := by
  apply Matrix.exists_mulVec_eq_zero_iff.mp
  refine ⟨v, hv, ?_⟩
  rw [← Matrix.mulVec_mulVec, assignAdTColumns_mulVec, h, AdT_zero, Matrix.mulVec_zero]

/-- At a right angle of the middle coordinate the twists of both conventions are linearly
dependent. -/
theorem localJacobianTwists_dependent (o : AxisOrder) (q : Vector3d ℝ)
    (h : Real.cos (q 1) = 0) :
    ∃ v : Vector3d ℝ, v ≠ 0
      ∧ (fun k => ∑ c, localJacobianTwists ⟨Real.cos, Real.sin, Real.pi⟩ o q c k * v c) = 0 := by
  cases o with
  | AO_ZYX =>
    refine ⟨![1, 0, Real.sin (q 1)], fun hv => ?_, ?_⟩
    · simpa using congrFun hv 0
    · funext k
      fin_cases k <;>
        simp [localJacobianTwists, Fin.sum_univ_three, h, Matrix.vecHead, Matrix.vecTail,
          vec6_val_five]
  | AO_XYZ =>
    refine ⟨![1, 0, -Real.sin (q 1)], fun hv => ?_, ?_⟩
    · simpa using congrFun hv 0
    · funext k
      fin_cases k <;>
        simp [localJacobianTwists, Fin.sum_univ_three, h, Matrix.vecHead, Matrix.vecTail,
          vec6_val_five]
  | AO_UNDEFINED n =>
    refine ⟨![1, 0, 0], fun hv => ?_, ?_⟩
    · simpa using congrFun hv 0
    · funext k
      simp [localJacobianTwists, Fin.sum_univ_three]

theorem diagnostics_at_right_angle (j : EulerJoint ℝ) (o : AxisOrder)
    (ho : o = .AO_XYZ ∨ o = .AO_ZYX) :
    (updateLocalJacobian ⟨Real.cos, Real.sin, Real.pi⟩ false
        { j with mAxisOrder := o, mPositions := ![0, Real.pi / 2, 0] }).2
      = [Diagnostic.singularConfiguration j.mName 0 (Real.pi / 2) 0,
          Diagnostic.illConditionedJacobian j.mName 0] := by
  obtain ⟨v, hv, hdep⟩ := localJacobianTwists_dependent o ![0, Real.pi / 2, 0] (by simp)
  have hdet := det_transpose_mul_self_eq_zero j.mT_ChildBodyToJoint j.mJacobian _ v hv hdep
  have habs : |Real.pi / 2| = Real.pi * 0.5 := by
    rw [abs_of_pos (by positivity)]
    norm_num
    ring
  have hlt : (0 : ℝ) < 1e-5 := by norm_num
  rcases ho with rfl | rfl <;>
    simp [updateLocalJacobian, jacobianDiagnostics, hdet, habs, hlt]

/-- C6 as amended: in a build with diagnostics, at `q = (0, pi/2, 0)` both checks of
`updateLocalJacobian` fire under ZYX and under XYZ alike, for every child offset: the
singular-configuration line is written because `|q1| == DART_PI * 0.5`, and the
ill-conditioning report because the determinant of `J^T J` is 0. -/
theorem singular_diagnostic_fires_under_both_orders (j : EulerJoint ℝ) :
    (updateLocalJacobian ⟨Real.cos, Real.sin, Real.pi⟩ false
        { j with mAxisOrder := .AO_ZYX, mPositions := ![0, Real.pi / 2, 0] }).2
      = [Diagnostic.singularConfiguration j.mName 0 (Real.pi / 2) 0,
          Diagnostic.illConditionedJacobian j.mName 0]
    ∧ (updateLocalJacobian ⟨Real.cos, Real.sin, Real.pi⟩ false
        { j with mAxisOrder := .AO_XYZ, mPositions := ![0, Real.pi / 2, 0] }).2
      = [Diagnostic.singularConfiguration j.mName 0 (Real.pi / 2) 0,
          Diagnostic.illConditionedJacobian j.mName 0] :=
  ⟨diagnostics_at_right_angle j _ (Or.inr rfl), diagnostics_at_right_angle j _ (Or.inl rfl)⟩

/-- C6 fails as stated: under XYZ at `q = (0, pi/2, 0)` the joint at rest does write the
diagnostics; the console output is not empty. -/
theorem singular_diagnostic_fires_under_XYZ :
    (updateLocalJacobian ⟨Real.cos, Real.sin, Real.pi⟩ false
        { (restJoint : EulerJoint ℝ) with mAxisOrder := .AO_XYZ, mPositions := ![0, Real.pi / 2, 0] }).2 ≠ [] := by
  rw [diagnostics_at_right_angle _ _ (Or.inl rfl)]
  simp

theorem det_angularBlock_XYZ (q : Vector3d ℝ) :
    (angularBlock (localJacobianTwists ⟨Real.cos, Real.sin, Real.pi⟩ .AO_XYZ q)).det = Real.cos (q 1) := by
  have h := Real.sin_sq_add_cos_sq (q 2)
  simp [angularBlock, localJacobianTwists, head3, Matrix.det_fin_three, Matrix.vecHead,
    Matrix.vecTail]
  linear_combination Real.cos (q 1) * h

theorem det_angularBlock_ZYX (q : Vector3d ℝ) :
    (angularBlock (localJacobianTwists ⟨Real.cos, Real.sin, Real.pi⟩ .AO_ZYX q)).det = -Real.cos (q 1) := by
  have h := Real.sin_sq_add_cos_sq (q 2)
  simp [angularBlock, localJacobianTwists, head3, Matrix.det_fin_three, Matrix.vecHead,
    Matrix.vecTail]
  linear_combination -Real.cos (q 1) * h

theorem det_angularBlock_sq (o : AxisOrder) (ho : o = .AO_XYZ ∨ o = .AO_ZYX) (q : Vector3d ℝ) :
    (angularBlock (localJacobianTwists ⟨Real.cos, Real.sin, Real.pi⟩ o q)).det ^ 2 = Real.cos (q 1) ^ 2 := by
  rcases ho with rfl | rfl
  · rw [det_angularBlock_XYZ]
  · rw [det_angularBlock_ZYX, neg_sq]

theorem tail3_localJacobianTwists {α : Type} [CommRing α] (ops : Scalar α) (o : AxisOrder)
    (q : Vector3d α) (c : Fin 3) : tail3 (localJacobianTwists ops o q c) = 0 := by
  funext a
  cases o <;> fin_cases c <;> fin_cases a <;>
    simp [tail3, localJacobianTwists, Matrix.vecHead, Matrix.vecTail, vec6_val_five]

/-- Through a child offset without translation, a twist without linear part keeps a zero
linear part and its angular part is rotated. -/
theorem AdT_ofLinear {α : Type} [CommRing α] (R : Matrix3d α) (V : Vector6d α)
    (hV : tail3 V = 0) :
    AdT (Isometry3d.ofLinear R) V = join3 (R.mulVec (head3 V)) 0 := by
  funext r
  fin_cases r <;>
    simp [AdT, Isometry3d.ofLinear, join3, hV, cross, Matrix.vecHead, Matrix.vecTail,
      vec6_val_five]

theorem jacobian_transpose_mul_self (R : Matrix3d ℝ) (hR : Rᵀ * R = 1) (M : Matrix63 ℝ)
    (ops : Scalar ℝ) (o : AxisOrder) (q : Vector3d ℝ) :
    (assignAdTColumns (Isometry3d.ofLinear R) M (localJacobianTwists ops o q))ᵀ
        * assignAdTColumns (Isometry3d.ofLinear R) M (localJacobianTwists ops o q)
      = (angularBlock (localJacobianTwists ops o q))ᵀ
        * angularBlock (localJacobianTwists ops o q) := by
  have e : (angularBlock (localJacobianTwists ops o q))ᵀ
        * angularBlock (localJacobianTwists ops o q)
      = (R * angularBlock (localJacobianTwists ops o q))ᵀ
        * (R * angularBlock (localJacobianTwists ops o q)) := by
    rw [Matrix.transpose_mul, Matrix.mul_assoc, ← Matrix.mul_assoc Rᵀ, hR, Matrix.one_mul]
  rw [e]
  ext a b
  simp only [Matrix.mul_apply, Matrix.transpose_apply, assignAdTColumns_apply,
    AdT_ofLinear R _ (tail3_localJacobianTwists ops o q _), Fin.sum_univ_six,
    Fin.sum_univ_three, angularBlock, Matrix.of_apply, Matrix.mulVec, Matrix.dotProduct]
  simp [join3, vec6_val_five, Matrix.mulVec, Matrix.dotProduct, Fin.sum_univ_three]

theorem rank_lt_three_iff_det (A : Matrix3d ℝ) : A.rank < 3 ↔ A.det = 0 := by
  constructor
  · intro h
    by_contra hd
    have hu : IsUnit A := (Matrix.isUnit_iff_isUnit_det A).mpr (isUnit_iff_ne_zero.mpr hd)
    have hr := Matrix.rank_of_isUnit A hu
    simp at hr
    omega
  · intro h
    obtain ⟨v, hv, hAv⟩ := Matrix.exists_mulVec_eq_zero_iff.mpr h
    have hker : 0 < Module.finrank ℝ (LinearMap.ker A.mulVecLin) := by
      rw [Module.finrank_pos_iff_exists_ne_zero]
      exact ⟨⟨v, by simpa using hAv⟩, fun h0 => hv (by simpa using congrArg Subtype.val h0)⟩
    have hrn := LinearMap.finrank_range_add_finrank_ker A.mulVecLin
    simp at hrn
    unfold Matrix.rank
    omega

/-- C7: for XYZ and ZYX and every coordinate triple, the angular block `S` of the twists
satisfies `det(S)^2 = det(S^T S) = cos(q1)^2`; when the child offset is a pure rotation `R`
(orthogonal, no translation) the stored Jacobian satisfies `det(J^T J) = cos(q1)^2`, its rank
drops below 3 exactly when `cos(q1) = 0`, and in a build with diagnostics the ill-conditioning
report is written exactly when `cos(q1)^2 < 1e-5`. -/
theorem jacobian_det_eq_cos_sq (o : AxisOrder) (ho : o = .AO_XYZ ∨ o = .AO_ZYX)
    (R : Matrix3d ℝ) (hR : Rᵀ * R = 1) (j : EulerJoint ℝ) (ndebug : Bool) :
    (angularBlock (localJacobianTwists ⟨Real.cos, Real.sin, Real.pi⟩ o j.mPositions)).det ^ 2
        = Real.cos (j.mPositions 1) ^ 2
    ∧ ((angularBlock (localJacobianTwists ⟨Real.cos, Real.sin, Real.pi⟩ o j.mPositions))ᵀ
        * angularBlock (localJacobianTwists ⟨Real.cos, Real.sin, Real.pi⟩ o j.mPositions)).det
        = Real.cos (j.mPositions 1) ^ 2
    ∧ (((updateLocalJacobian ⟨Real.cos, Real.sin, Real.pi⟩ ndebug { j with mAxisOrder := o, mT_ChildBodyToJoint := Isometry3d.ofLinear R }).1.mJacobian)ᵀ
        * (updateLocalJacobian ⟨Real.cos, Real.sin, Real.pi⟩ ndebug { j with mAxisOrder := o, mT_ChildBodyToJoint := Isometry3d.ofLinear R }).1.mJacobian).det
        = Real.cos (j.mPositions 1) ^ 2
    ∧ (((updateLocalJacobian ⟨Real.cos, Real.sin, Real.pi⟩ ndebug { j with mAxisOrder := o, mT_ChildBodyToJoint := Isometry3d.ofLinear R }).1.mJacobian).rank < 3
        ↔ Real.cos (j.mPositions 1) = 0)
    ∧ ((∃ d : ℝ, Diagnostic.illConditionedJacobian j.mName d
          ∈ (updateLocalJacobian ⟨Real.cos, Real.sin, Real.pi⟩ false { j with mAxisOrder := o, mT_ChildBodyToJoint := Isometry3d.ofLinear R }).2)
        ↔ Real.cos (j.mPositions 1) ^ 2 < 1e-5) := by
  have hS : ((angularBlock (localJacobianTwists ⟨Real.cos, Real.sin, Real.pi⟩ o j.mPositions))ᵀ
      * angularBlock (localJacobianTwists ⟨Real.cos, Real.sin, Real.pi⟩ o j.mPositions)).det
      = Real.cos (j.mPositions 1) ^ 2 := by
    rw [Matrix.det_mul, Matrix.det_transpose, ← sq, det_angularBlock_sq o ho]
  have hJ : ∀ nd : Bool, (((updateLocalJacobian ⟨Real.cos, Real.sin, Real.pi⟩ nd { j with mAxisOrder := o, mT_ChildBodyToJoint := Isometry3d.ofLinear R }).1.mJacobian)ᵀ
      * (updateLocalJacobian ⟨Real.cos, Real.sin, Real.pi⟩ nd { j with mAxisOrder := o, mT_ChildBodyToJoint := Isometry3d.ofLinear R }).1.mJacobian).det
      = Real.cos (j.mPositions 1) ^ 2 := by
    intro nd
    simp only [updateLocalJacobian]
    rw [jacobian_transpose_mul_self R hR, hS]
  refine ⟨det_angularBlock_sq o ho _, hS, hJ ndebug, ?_, ?_⟩
  · rw [← Matrix.rank_transpose_mul_self, rank_lt_three_iff_det, hJ ndebug]
    exact pow_eq_zero_iff (by norm_num)
  · have hd := hJ false
    simp only [updateLocalJacobian] at hd
    rcases ho with rfl | rfl <;>
      simp [updateLocalJacobian, jacobianDiagnostics, hd]

/-- The statement of `jacobian_det_eq_cos_sq` under XYZ for the joint at rest, whose child
offset is the identity rotation: the determinant of `J^T J` is `cos(0)^2`. -/
theorem jacobian_det_eq_cos_sq_witness :
    (((1 : Matrix3d ℝ)ᵀ * 1 = 1) ∧ (AxisOrder.AO_XYZ = .AO_XYZ ∨ AxisOrder.AO_XYZ = .AO_ZYX))
    ∧ (((updateLocalJacobian ⟨Real.cos, Real.sin, Real.pi⟩ true { (restJoint : EulerJoint ℝ) with mAxisOrder := .AO_XYZ, mT_ChildBodyToJoint := Isometry3d.ofLinear 1 }).1.mJacobian)ᵀ
        * (updateLocalJacobian ⟨Real.cos, Real.sin, Real.pi⟩ true { (restJoint : EulerJoint ℝ) with mAxisOrder := .AO_XYZ, mT_ChildBodyToJoint := Isometry3d.ofLinear 1 }).1.mJacobian).det
        = Real.cos ((restJoint : EulerJoint ℝ).mPositions 1) ^ 2 :=
  ⟨⟨by simp, Or.inl rfl⟩,
    (jacobian_det_eq_cos_sq .AO_XYZ (Or.inl rfl) 1 (by simp) restJoint true).2.2.1⟩

theorem localJacobianTwists_XYZ_zero (i : Fin 3) :
    localJacobianTwists ⟨Real.cos, Real.sin, Real.pi⟩ .AO_XYZ ![0, 0, 0] i = join3 (Pi.single i 1) 0 := by
  funext r
  fin_cases i <;> fin_cases r <;>
    simp [localJacobianTwists, join3, Pi.single_apply, Matrix.vecHead, Matrix.vecTail,
      vec6_val_five]

theorem AdT_join3 {α : Type} [CommRing α] (T : Isometry3d α) (w v : Vector3d α) :
    AdT T (join3 w v)
      = join3 (T.linear.mulVec w) (T.linear.mulVec v + cross T.translation (T.linear.mulVec w)) := by
  have hw : head3 (join3 w v) = w := by
    funext a
    fin_cases a <;> simp [head3, join3, Matrix.vecHead, Matrix.vecTail]
  have hv : tail3 (join3 w v) = v := by
    funext a
    fin_cases a <;> simp [tail3, join3, Matrix.vecHead, Matrix.vecTail, vec6_val_five]
  simp only [AdT, hw, hv]

theorem jacobian_column_XYZ_zero (j : EulerJoint ℝ) (ndebug : Bool) (i : Fin 3) :
    (fun r => ((updateLocalJacobian ⟨Real.cos, Real.sin, Real.pi⟩ ndebug { j with mAxisOrder := .AO_XYZ, mPositions := ![0, 0, 0] }).1.mJacobian) r i)
      = AdT j.mT_ChildBodyToJoint (join3 (Pi.single i 1) 0) := by
  funext r
  simp only [updateLocalJacobian, assignAdTColumns_apply, localJacobianTwists_XYZ_zero]

/-- C8: under XYZ at `q = (0, 0, 0)`, for every child offset `T = (R, p)`, column `i` of the
stored Jacobian is `AdT(T, (e_i, 0))` for the unit-axis angular twist `e_i`, where
`AdT(T, (w, v)) = (R w, R v + p x (R w))`. -/
theorem jacobian_at_zero_is_adjoint_of_unit_axes (j : EulerJoint ℝ) (ndebug : Bool)
    (i : Fin 3) :
    (fun r => ((updateLocalJacobian ⟨Real.cos, Real.sin, Real.pi⟩ ndebug { j with mAxisOrder := .AO_XYZ, mPositions := ![0, 0, 0] }).1.mJacobian) r i)
      = AdT j.mT_ChildBodyToJoint (join3 (Pi.single i 1) 0)
    ∧ ∀ w v : Vector3d ℝ, AdT j.mT_ChildBodyToJoint (join3 w v)
      = join3 (j.mT_ChildBodyToJoint.linear.mulVec w)
          (j.mT_ChildBodyToJoint.linear.mulVec v
            + cross j.mT_ChildBodyToJoint.translation (j.mT_ChildBodyToJoint.linear.mulVec w)) :=
  ⟨jacobian_column_XYZ_zero j ndebug i, fun w v => AdT_join3 _ w v⟩

theorem tail3_two {α : Type} (V : Vector6d α) : tail3 V 2 = V 5 := rfl

theorem tail3_join3 {α : Type} (w v : Vector3d α) : tail3 (join3 w v) = v := by
  funext a
  fin_cases a <;> simp [tail3, join3, Matrix.vecHead, Matrix.vecTail, vec6_val_five]

/-- C9 as amended: under XYZ at `q = (0, 0, 0)`, for every child offset `(R, p)`, column `i`
of the linear block (rows 3..5) of the stored Jacobian is `p x (R e_i)`; when the child offset
has no translation the linear block is the zero 3x3 matrix. -/
theorem jacobian_at_zero_linear_block (j : EulerJoint ℝ) (ndebug : Bool) :
    (∀ i : Fin 3, tail3 (fun r => ((updateLocalJacobian ⟨Real.cos, Real.sin, Real.pi⟩ ndebug { j with mAxisOrder := .AO_XYZ, mPositions := ![0, 0, 0] }).1.mJacobian) r i)
      = cross j.mT_ChildBodyToJoint.translation
          (j.mT_ChildBodyToJoint.linear.mulVec (Pi.single i 1)))
    ∧ ∀ (R : Matrix3d ℝ) (i : Fin 3),
      tail3 (fun r => ((updateLocalJacobian ⟨Real.cos, Real.sin, Real.pi⟩ ndebug { j with mAxisOrder := .AO_XYZ, mPositions := ![0, 0, 0], mT_ChildBodyToJoint := Isometry3d.ofLinear R }).1.mJacobian) r i) = 0 := by
  constructor
  · intro i
    rw [jacobian_column_XYZ_zero, AdT_join3, tail3_join3]
    simp
  · intro R i
    have h := jacobian_column_XYZ_zero
      { j with mT_ChildBodyToJoint := Isometry3d.ofLinear R } ndebug i
    simp only at h
    rw [h, AdT_join3, tail3_join3]
    funext a
    fin_cases a <;> simp [Isometry3d.ofLinear, cross, Matrix.vecHead, Matrix.vecTail]

/-- C9 fails as stated: under XYZ at `q = (0, 0, 0)` with the child offset "identity rotation,
translation (0, 1, 0)", entry (5, 0) of the stored Jacobian is -1, so the linear block is not
the zero matrix. -/
theorem jacobian_at_zero_linear_block_nonzero :
    ((updateLocalJacobian ⟨Real.cos, Real.sin, Real.pi⟩ true { (restJoint : EulerJoint ℝ) with mAxisOrder := .AO_XYZ, mPositions := ![0, 0, 0], mT_ChildBodyToJoint := ⟨1, ![0, 1, 0]⟩ }).1.mJacobian) 5 0 = -1
    ∧ ¬ ∀ i : Fin 3, tail3 (fun r => ((updateLocalJacobian ⟨Real.cos, Real.sin, Real.pi⟩ true { (restJoint : EulerJoint ℝ) with mAxisOrder := .AO_XYZ, mPositions := ![0, 0, 0], mT_ChildBodyToJoint := ⟨1, ![0, 1, 0]⟩ }).1.mJacobian) r i) = 0 := by
  have h : ((updateLocalJacobian ⟨Real.cos, Real.sin, Real.pi⟩ true { (restJoint : EulerJoint ℝ) with mAxisOrder := .AO_XYZ, mPositions := ![0, 0, 0], mT_ChildBodyToJoint := ⟨1, ![0, 1, 0]⟩ }).1.mJacobian) 5 0 = -1 := by
    have e := congrFun (jacobian_column_XYZ_zero
      { (restJoint : EulerJoint ℝ) with mT_ChildBodyToJoint := ⟨1, ![0, 1, 0]⟩ } true 0) 5
    simp only at e
    rw [e, AdT_join3]
    simp [join3, cross, vec6_val_five, Matrix.vecHead, Matrix.vecTail]
  refine ⟨h, fun hz => ?_⟩
  have h2 := congrFun (hz 0) 2
  rw [tail3_two, Pi.zero_apply] at h2
  rw [h] at h2
  norm_num at h2

/-- C10: for every axis-order value other than XYZ and ZYX, all coordinates, velocities and
fixed offsets, and whatever was stored before: `updateLocalJacobian` stores the zero 6x3
Jacobian, `updateLocalJacobianTimeDeriv` stores the zero 6x3 matrix, `getTransform(i)` returns
the identity transform and `getTransformDerivative(i)` returns the zero 4x4 matrix, for `i` in
0..2. -/
theorem undefined_axis_order_fallback {α : Type} [LinearOrderedField α] (ops : Scalar α)
    (raw : Nat) (j : EulerJoint α) (ndebug : Bool) (i : Fin 3) :
    (updateLocalJacobian ops ndebug { j with mAxisOrder := .AO_UNDEFINED raw }).1.mJacobian = 0
    ∧ (updateLocalJacobianTimeDeriv ops
        { j with mAxisOrder := .AO_UNDEFINED raw }).mJacobianDeriv = 0
    ∧ getTransform ops ndebug { j with mAxisOrder := .AO_UNDEFINED raw } i.val
        = .ok Isometry3d.Identity
    ∧ getTransformDerivative ops ndebug { j with mAxisOrder := .AO_UNDEFINED raw } i.val
        = .ok 0 := by
  refine ⟨?_, ?_, ?_, ?_⟩
  · ext r c
    fin_cases c <;>
      simp [updateLocalJacobian, assignAdTColumns_apply, localJacobianTwists, AdT_zero]
  · ext r c
    fin_cases c <;>
      simp [updateLocalJacobianTimeDeriv, assignAdTColumns_apply, localJacobianTimeDerivTwists,
        AdT_zero]
  · cases ndebug <;> fin_cases i <;> simp [getTransform]
  · cases ndebug <;> simp [getTransformDerivative]

end EulerJoint

end dynamics

/-! ## Rigid transforms -/

namespace math

theorem rotX_det (θ : ℝ) : (rotX ⟨Real.cos, Real.sin, Real.pi⟩ θ).det = 1 := by
  have h := Real.sin_sq_add_cos_sq θ
  simp [rotX, Matrix.det_fin_three, Matrix.vecHead, Matrix.vecTail]
  linear_combination h

theorem rotY_det (θ : ℝ) : (rotY ⟨Real.cos, Real.sin, Real.pi⟩ θ).det = 1 := by
  have h := Real.sin_sq_add_cos_sq θ
  simp [rotY, Matrix.det_fin_three, Matrix.vecHead, Matrix.vecTail]
  linear_combination h

theorem rotZ_det (θ : ℝ) : (rotZ ⟨Real.cos, Real.sin, Real.pi⟩ θ).det = 1 := by
  have h := Real.sin_sq_add_cos_sq θ
  simp [rotZ, Matrix.det_fin_three, Matrix.vecHead, Matrix.vecTail]
  linear_combination h

theorem isRigid_linear_mul {A B : Matrix3d ℝ} (hA : Aᵀ * A = 1 ∧ A.det = 1)
    (hB : Bᵀ * B = 1 ∧ B.det = 1) : (A * B)ᵀ * (A * B) = 1 ∧ (A * B).det = 1 := by
  constructor
  · rw [Matrix.transpose_mul, Matrix.mul_assoc, ← Matrix.mul_assoc Aᵀ, hA.1, Matrix.one_mul, hB.1]
  · rw [Matrix.det_mul, hA.2, hB.2, one_mul]

theorem eulerXYZToMatrix_rigid (q : Vector3d ℝ) :
    IsRigid (Isometry3d.ofLinear (eulerXYZToMatrix ⟨Real.cos, Real.sin, Real.pi⟩ q)) := by
  show (eulerXYZToMatrix ⟨Real.cos, Real.sin, Real.pi⟩ q)ᵀ * eulerXYZToMatrix ⟨Real.cos, Real.sin, Real.pi⟩ q = 1
    ∧ (eulerXYZToMatrix ⟨Real.cos, Real.sin, Real.pi⟩ q).det = 1
  rw [eulerXYZToMatrix_eq_mul]
  exact isRigid_linear_mul
    (isRigid_linear_mul ⟨rotX_transpose_mul_self _, rotX_det _⟩
      ⟨rotY_transpose_mul_self _, rotY_det _⟩)
    ⟨rotZ_transpose_mul_self _, rotZ_det _⟩

theorem eulerZYXToMatrix_rigid (q : Vector3d ℝ) :
    IsRigid (Isometry3d.ofLinear (eulerZYXToMatrix ⟨Real.cos, Real.sin, Real.pi⟩ q)) := by
  show (eulerZYXToMatrix ⟨Real.cos, Real.sin, Real.pi⟩ q)ᵀ * eulerZYXToMatrix ⟨Real.cos, Real.sin, Real.pi⟩ q = 1
    ∧ (eulerZYXToMatrix ⟨Real.cos, Real.sin, Real.pi⟩ q).det = 1
  rw [eulerZYXToMatrix_eq_mul]
  exact isRigid_linear_mul
    (isRigid_linear_mul ⟨rotZ_transpose_mul_self _, rotZ_det _⟩
      ⟨rotY_transpose_mul_self _, rotY_det _⟩)
    ⟨rotX_transpose_mul_self _, rotX_det _⟩

theorem isRigid_mul {a b : Isometry3d ℝ} (ha : IsRigid a) (hb : IsRigid b) :
    IsRigid (a.mul b) :=
  isRigid_linear_mul ha hb

theorem isRigid_inverse {a : Isometry3d ℝ} (ha : IsRigid a) : IsRigid a.inverse := by
  constructor
  · simp only [Isometry3d.inverse, Matrix.transpose_transpose]
    exact (Matrix.mul_eq_one_comm).mp ha.1
  · simp only [Isometry3d.inverse, Matrix.det_transpose]
    exact ha.2

theorem isRigid_mul_inverse {a : Isometry3d ℝ} (ha : IsRigid a) :
    a.mul a.inverse = Isometry3d.Identity := by
  have h : a.linear * a.linearᵀ = 1 := (Matrix.mul_eq_one_comm).mp ha.1
  simp only [Isometry3d.mul, Isometry3d.inverse, Isometry3d.Identity, h, Matrix.mulVec_neg,
    Matrix.mulVec_mulVec, Matrix.one_mulVec, neg_add_cancel]

theorem isRigid_inverse_mul {a : Isometry3d ℝ} (ha : IsRigid a) :
    a.inverse.mul a = Isometry3d.Identity := by
  simp only [Isometry3d.mul, Isometry3d.inverse, Isometry3d.Identity, ha.1, add_neg_cancel]

theorem isometry_matrix_bottom_row {α : Type} [CommRing α] (a : Isometry3d α) :
    a.matrix 3 = ![0, 0, 0, 1] := by
  funext c
  fin_cases c <;> simp [Isometry3d.matrix, dynamics.EulerJoint.fin4_val_three]

theorem verifyTransform_of_rigid {a : Isometry3d ℝ} (ha : IsRigid a) (eps : ℝ) (heps : 0 ≤ eps) :
    verifyTransform eps a = true := by
  simp [verifyTransform, ha.2, heps]

end math

/-! ## Fallbacks, build modes, frame conditions and invariants of the joint -/

namespace dynamics

namespace EulerJoint

open math

/-- C11, the code at the failing input: under an axis-order value other than XYZ and ZYX
`updateLocalTransform` leaves the stored local transform as it was, whatever it was; for the
joint at rest whose stored transform is the translation by `(1, 0, 0)`, the transform after
the call is still that translation and not the identity. -/
theorem updateLocalTransform_undefined_keeps_previous (raw : Nat) (j : EulerJoint ℝ) :
    (updateLocalTransform ⟨Real.cos, Real.sin, Real.pi⟩ { j with mAxisOrder := .AO_UNDEFINED raw }).mT = j.mT
    ∧ (updateLocalTransform ⟨Real.cos, Real.sin, Real.pi⟩
        { (restJoint : EulerJoint ℝ) with mAxisOrder := .AO_UNDEFINED 2, mT := ⟨1, ![1, 0, 0]⟩ }).mT
      ≠ Isometry3d.Identity := by
  refine ⟨rfl, fun h => ?_⟩
  have h0 := congrFun (congrArg Isometry3d.translation h) 0
  simp [updateLocalTransform, Isometry3d.Identity] at h0

/-- C12 as amended: for every index `n + 3`, with assertions compiled out
`getTransformDerivative` returns the zero 4x4 matrix, without reading any vector past its
end; with assertions compiled in, `getTransform` and `getTransformDerivative` both stop at
`assert(_index < 3)`. -/
theorem getTransformDerivative_out_of_range {α : Type} [CommRing α] (ops : Scalar α)
    (j : EulerJoint α) (n : Nat) :
    getTransformDerivative ops true j (n + 3) = .ok 0
    ∧ getTransformDerivative ops false j (n + 3) = .error .assertionFailed
    ∧ getTransform ops false j (n + 3) = .error .assertionFailed := by
  refine ⟨?_, ?_, ?_⟩
  · cases h : j.mAxisOrder <;> simp [getTransformDerivative, h]
  · simp [getTransformDerivative]
  · simp [getTransform]

/-- C12 fails as stated: with assertions compiled out, `getTransform(3)` on the joint at rest
reaches `q[3] = mPositions[3]`, an access past the end of the three-element vectors, instead
of returning a fallback value. -/
theorem getTransform_out_of_range :
    getTransform ⟨Real.cos, Real.sin, Real.pi⟩ true (restJoint : EulerJoint ℝ) 3 = .error .outOfBounds := by
  simp [getTransform]

/-- C13: for every axis order, coordinate triple and child offset, the joint that
`updateLocalJacobian` leaves behind, its Jacobian included, is the same with the diagnostics
compiled in and compiled out, whether or not a check fires: in both builds the stored
Jacobian has the columns `AdT(ChildToJoint, J_i)`. -/
theorem jacobian_same_with_and_without_diagnostics {α : Type} [LinearOrderedField α]
    (ops : Scalar α) (j : EulerJoint α) :
    (updateLocalJacobian ops false j).1 = (updateLocalJacobian ops true j).1
    ∧ (updateLocalJacobian ops false j).1.mJacobian = (updateLocalJacobian ops true j).1.mJacobian
    ∧ ∀ (ndebug : Bool) (r : Fin 6) (i : Fin 3),
        (updateLocalJacobian ops ndebug j).1.mJacobian r i
          = AdT j.mT_ChildBodyToJoint (localJacobianTwists ops j.mAxisOrder j.mPositions i) r :=
  ⟨rfl, rfl, fun _ r i => assignAdTColumns_apply _ _ _ r i⟩

theorem updateLocalTransform_isRigid (o : AxisOrder) (ho : o = .AO_XYZ ∨ o = .AO_ZYX)
    (j : EulerJoint ℝ) (hP : IsRigid j.mT_ParentBodyToJoint)
    (hC : IsRigid j.mT_ChildBodyToJoint) :
    IsRigid ((updateLocalTransform ⟨Real.cos, Real.sin, Real.pi⟩ { j with mAxisOrder := o }).mT) := by
  rcases ho with rfl | rfl
  · exact isRigid_mul (isRigid_mul hP (eulerXYZToMatrix_rigid _)) (isRigid_inverse hC)
  · exact isRigid_mul (isRigid_mul hP (eulerZYXToMatrix_rigid _)) (isRigid_inverse hC)

/-- C14: under XYZ and under ZYX, for every coordinate triple and every pair of rigid fixed
offsets, the local transform stored by `updateLocalTransform` is rigid (rotation block
orthogonal with determinant 1, bottom row `(0, 0, 0, 1)`), its products with its inverse are
the identity, and `verifyTransform` accepts it for every tolerance `DART_EPSILON >= 0`. -/
theorem updateLocalTransform_rigid (o : AxisOrder) (ho : o = .AO_XYZ ∨ o = .AO_ZYX)
    (j : EulerJoint ℝ) (hP : IsRigid j.mT_ParentBodyToJoint)
    (hC : IsRigid j.mT_ChildBodyToJoint) (DART_EPSILON : ℝ) (heps : 0 ≤ DART_EPSILON) :
    IsRigid ((updateLocalTransform ⟨Real.cos, Real.sin, Real.pi⟩ { j with mAxisOrder := o }).mT)
    ∧ ((updateLocalTransform ⟨Real.cos, Real.sin, Real.pi⟩ { j with mAxisOrder := o }).mT).matrix 3 = ![0, 0, 0, 1]
    ∧ ((updateLocalTransform ⟨Real.cos, Real.sin, Real.pi⟩ { j with mAxisOrder := o }).mT).mul ((updateLocalTransform ⟨Real.cos, Real.sin, Real.pi⟩ { j with mAxisOrder := o }).mT).inverse = Isometry3d.Identity
    ∧ ((updateLocalTransform ⟨Real.cos, Real.sin, Real.pi⟩ { j with mAxisOrder := o }).mT).inverse.mul ((updateLocalTransform ⟨Real.cos, Real.sin, Real.pi⟩ { j with mAxisOrder := o }).mT) = Isometry3d.Identity
    ∧ ((updateLocalTransform ⟨Real.cos, Real.sin, Real.pi⟩ { j with mAxisOrder := o }).mT).matrix * ((updateLocalTransform ⟨Real.cos, Real.sin, Real.pi⟩ { j with mAxisOrder := o }).mT).inverse.matrix = 1
    ∧ verifyTransform DART_EPSILON ((updateLocalTransform ⟨Real.cos, Real.sin, Real.pi⟩ { j with mAxisOrder := o }).mT) = true := by
  have h := updateLocalTransform_isRigid o ho j hP hC
  refine ⟨h, isometry_matrix_bottom_row _, isRigid_mul_inverse h, isRigid_inverse_mul h, ?_,
    verifyTransform_of_rigid h _ heps⟩
  rw [← isometry_matrix_mul, isRigid_mul_inverse h, isometry_identity_matrix]

/-- The statement of `updateLocalTransform_rigid` under XYZ for the joint at rest, whose
offsets are the identity, with the tolerance 0. -/
theorem updateLocalTransform_rigid_witness :
    ((AxisOrder.AO_XYZ = .AO_XYZ ∨ AxisOrder.AO_XYZ = .AO_ZYX)
      ∧ IsRigid (restJoint : EulerJoint ℝ).mT_ParentBodyToJoint
      ∧ IsRigid (restJoint : EulerJoint ℝ).mT_ChildBodyToJoint ∧ (0 : ℝ) ≤ 0)
    ∧ IsRigid ((updateLocalTransform ⟨Real.cos, Real.sin, Real.pi⟩ { (restJoint : EulerJoint ℝ) with mAxisOrder := .AO_XYZ }).mT)
    ∧ ((updateLocalTransform ⟨Real.cos, Real.sin, Real.pi⟩ { (restJoint : EulerJoint ℝ) with mAxisOrder := .AO_XYZ }).mT).matrix 3 = ![0, 0, 0, 1]
    ∧ ((updateLocalTransform ⟨Real.cos, Real.sin, Real.pi⟩ { (restJoint : EulerJoint ℝ) with mAxisOrder := .AO_XYZ }).mT).mul ((updateLocalTransform ⟨Real.cos, Real.sin, Real.pi⟩ { (restJoint : EulerJoint ℝ) with mAxisOrder := .AO_XYZ }).mT).inverse = Isometry3d.Identity
    ∧ ((updateLocalTransform ⟨Real.cos, Real.sin, Real.pi⟩ { (restJoint : EulerJoint ℝ) with mAxisOrder := .AO_XYZ }).mT).inverse.mul ((updateLocalTransform ⟨Real.cos, Real.sin, Real.pi⟩ { (restJoint : EulerJoint ℝ) with mAxisOrder := .AO_XYZ }).mT) = Isometry3d.Identity
    ∧ ((updateLocalTransform ⟨Real.cos, Real.sin, Real.pi⟩ { (restJoint : EulerJoint ℝ) with mAxisOrder := .AO_XYZ }).mT).matrix * ((updateLocalTransform ⟨Real.cos, Real.sin, Real.pi⟩ { (restJoint : EulerJoint ℝ) with mAxisOrder := .AO_XYZ }).mT).inverse.matrix = 1
    ∧ verifyTransform 0 ((updateLocalTransform ⟨Real.cos, Real.sin, Real.pi⟩ { (restJoint : EulerJoint ℝ) with mAxisOrder := .AO_XYZ }).mT) = true :=
  ⟨⟨Or.inl rfl, ⟨by simp [restJoint, Isometry3d.Identity], by simp [restJoint, Isometry3d.Identity]⟩,
      ⟨by simp [restJoint, Isometry3d.Identity], by simp [restJoint, Isometry3d.Identity]⟩, le_refl 0⟩,
    updateLocalTransform_rigid .AO_XYZ (Or.inl rfl) restJoint
      ⟨by simp [restJoint, Isometry3d.Identity], by simp [restJoint, Isometry3d.Identity]⟩
      ⟨by simp [restJoint, Isometry3d.Identity], by simp [restJoint, Isometry3d.Identity]⟩ 0
      (le_refl 0)⟩

/-- C15: a newly constructed joint has axis order XYZ; `getAxisOrder` after `setAxisOrder(o)`
returns `o`; and `setAxisOrder` leaves the name, the coordinates, the velocities, both fixed
offsets, the stored transform and both stored Jacobians as they were. -/
theorem setAxisOrder_frame {α : Type} [CommRing α] (base : String → EulerJoint α)
    (_name : String) (j : EulerJoint α) (o : AxisOrder) :
    getAxisOrder (construct base _name) = .AO_XYZ
    ∧ getAxisOrder (setAxisOrder j o) = o
    ∧ (setAxisOrder j o).mName = j.mName
    ∧ (setAxisOrder j o).mPositions = j.mPositions
    ∧ (setAxisOrder j o).mVelocities = j.mVelocities
    ∧ (setAxisOrder j o).mT_ParentBodyToJoint = j.mT_ParentBodyToJoint
    ∧ (setAxisOrder j o).mT_ChildBodyToJoint = j.mT_ChildBodyToJoint
    ∧ (setAxisOrder j o).mT = j.mT
    ∧ (setAxisOrder j o).mJacobian = j.mJacobian
    ∧ (setAxisOrder j o).mJacobianDeriv = j.mJacobianDeriv :=
  ⟨rfl, rfl, rfl, rfl, rfl, rfl, rfl, rfl, rfl, rfl⟩

theorem localJacobianTwists_update_self {α : Type} [CommRing α] (ops : Scalar α)
    (o : AxisOrder) (q : Vector3d α) (i : Fin 3) (x : α) :
    localJacobianTwists ops o (Function.update q i x) i = localJacobianTwists ops o q i := by
  cases o <;> fin_cases i <;> simp [localJacobianTwists, Function.update]

theorem localJacobianTwists_update_zero {α : Type} [CommRing α] (ops : Scalar α)
    (o : AxisOrder) (q : Vector3d α) (x : α) :
    localJacobianTwists ops o (Function.update q 0 x) = localJacobianTwists ops o q := by
  cases o <;> simp [localJacobianTwists, Function.update]

theorem localJacobianTimeDerivTwists_update_zero {α : Type} [CommRing α] (ops : Scalar α)
    (o : AxisOrder) (q dq : Vector3d α) (x y : α) :
    localJacobianTimeDerivTwists ops o (Function.update q 0 x) (Function.update dq 0 y)
      = localJacobianTimeDerivTwists ops o q dq := by
  cases o <;> simp [localJacobianTimeDerivTwists, Function.update]

theorem localJacobianTimeDerivTwists_two {α : Type} [CommRing α] (ops : Scalar α)
    (o : AxisOrder) (q dq : Vector3d α) : localJacobianTimeDerivTwists ops o q dq 2 = 0 := by
  funext r
  cases o <;> fin_cases r <;>
    simp [localJacobianTimeDerivTwists, Matrix.vecHead, Matrix.vecTail, vec6_val_five]

/-- C16: for every axis order (XYZ and ZYX in particular) and every child offset, column `i`
of the stored Jacobian is the same for two coordinate triples that differ only in `q_i`; the
whole Jacobian does not change with `q0`; the whole Jacobian time-derivative does not change
with `q0` and `dq0`; and the third column of the Jacobian time-derivative is zero. -/
theorem jacobian_column_independent_of_own_coordinate {α : Type} [LinearOrderedField α]
    (ops : Scalar α) (ndebug : Bool) (j : EulerJoint α) :
    (∀ (i : Fin 3) (x : α) (r : Fin 6),
        (updateLocalJacobian ops ndebug
          { j with mPositions := Function.update j.mPositions i x }).1.mJacobian r i
        = (updateLocalJacobian ops ndebug j).1.mJacobian r i)
    ∧ (∀ x : α,
        (updateLocalJacobian ops ndebug
          { j with mPositions := Function.update j.mPositions 0 x }).1.mJacobian
        = (updateLocalJacobian ops ndebug j).1.mJacobian)
    ∧ (∀ x y : α,
        (updateLocalJacobianTimeDeriv ops
          { j with mPositions := Function.update j.mPositions 0 x, mVelocities := Function.update j.mVelocities 0 y }).mJacobianDeriv
        = (updateLocalJacobianTimeDeriv ops j).mJacobianDeriv)
    ∧ ∀ r : Fin 6, (updateLocalJacobianTimeDeriv ops j).mJacobianDeriv r 2 = 0 := by
  refine ⟨fun i x r => ?_, fun x => ?_, fun x y => ?_, fun r => ?_⟩
  · simp only [updateLocalJacobian, assignAdTColumns_apply, localJacobianTwists_update_self]
  · ext r c
    simp only [updateLocalJacobian, assignAdTColumns_apply, localJacobianTwists_update_zero]
  · ext r c
    simp only [updateLocalJacobianTimeDeriv, assignAdTColumns_apply,
      localJacobianTimeDerivTwists_update_zero]
  · simp only [updateLocalJacobianTimeDeriv, assignAdTColumns_apply,
      localJacobianTimeDerivTwists_two, AdT_zero, Pi.zero_apply]

theorem isometry_mul_assoc {α : Type} [CommRing α] (a b c : Isometry3d α) :
    (a.mul b).mul c = a.mul (b.mul c) := by
  simp only [Isometry3d.mul, Matrix.mul_assoc, Matrix.mulVec_add, Matrix.mulVec_mulVec, add_assoc]

/-- C17: under XYZ and under ZYX, for every coordinate triple,
`getTransform(0) * getTransform(1) * getTransform(2)` is the composed rotation that
`updateLocalTransform` uses, and the stored local transform is
`ParentToJoint * getTransform(0) * getTransform(1) * getTransform(2) * inverse(ChildToJoint)`. -/
theorem getTransform_product_is_rotation (j : EulerJoint ℝ) (ndebug : Bool) :
    (∃ G0 G1 G2 : Isometry3d ℝ,
        getTransform ⟨Real.cos, Real.sin, Real.pi⟩ ndebug { j with mAxisOrder := .AO_XYZ } 0 = .ok G0
        ∧ getTransform ⟨Real.cos, Real.sin, Real.pi⟩ ndebug { j with mAxisOrder := .AO_XYZ } 1 = .ok G1
        ∧ getTransform ⟨Real.cos, Real.sin, Real.pi⟩ ndebug { j with mAxisOrder := .AO_XYZ } 2 = .ok G2
        ∧ (G0.mul G1).mul G2 = Isometry3d.ofLinear (eulerXYZToMatrix ⟨Real.cos, Real.sin, Real.pi⟩ j.mPositions)
        ∧ (updateLocalTransform ⟨Real.cos, Real.sin, Real.pi⟩ { j with mAxisOrder := .AO_XYZ }).mT
          = (((j.mT_ParentBodyToJoint.mul G0).mul G1).mul G2).mul j.mT_ChildBodyToJoint.inverse)
    ∧ (∃ G0 G1 G2 : Isometry3d ℝ,
        getTransform ⟨Real.cos, Real.sin, Real.pi⟩ ndebug { j with mAxisOrder := .AO_ZYX } 0 = .ok G0
        ∧ getTransform ⟨Real.cos, Real.sin, Real.pi⟩ ndebug { j with mAxisOrder := .AO_ZYX } 1 = .ok G1
        ∧ getTransform ⟨Real.cos, Real.sin, Real.pi⟩ ndebug { j with mAxisOrder := .AO_ZYX } 2 = .ok G2
        ∧ (G0.mul G1).mul G2 = Isometry3d.ofLinear (eulerZYXToMatrix ⟨Real.cos, Real.sin, Real.pi⟩ j.mPositions)
        ∧ (updateLocalTransform ⟨Real.cos, Real.sin, Real.pi⟩ { j with mAxisOrder := .AO_ZYX }).mT
          = (((j.mT_ParentBodyToJoint.mul G0).mul G1).mul G2).mul j.mT_ChildBodyToJoint.inverse) := by
  constructor
  ·
    refine ⟨_, _, _, getTransform_eq ndebug { j with mAxisOrder := .AO_XYZ } 0,
      getTransform_eq ndebug { j with mAxisOrder := .AO_XYZ } 1,
      getTransform_eq ndebug { j with mAxisOrder := .AO_XYZ } 2, ?_, ?_⟩
    · simp only [← isometry_ofLinear_mul, eulerXYZToMatrix_eq_mul, elementaryRotation]
    · simp only [isometry_mul_assoc j.mT_ParentBodyToJoint, ← isometry_ofLinear_mul,
        updateLocalTransform, eulerXYZToMatrix_eq_mul, elementaryRotation]
  ·
    refine ⟨_, _, _, getTransform_eq ndebug { j with mAxisOrder := .AO_ZYX } 0,
      getTransform_eq ndebug { j with mAxisOrder := .AO_ZYX } 1,
      getTransform_eq ndebug { j with mAxisOrder := .AO_ZYX } 2, ?_, ?_⟩
    · simp only [← isometry_ofLinear_mul, eulerZYXToMatrix_eq_mul, elementaryRotation]
    · simp only [isometry_mul_assoc j.mT_ParentBodyToJoint, ← isometry_ofLinear_mul,
        updateLocalTransform, eulerZYXToMatrix_eq_mul, elementaryRotation]

/-- C18: under XYZ and under ZYX, for every coordinate triple, each elementary twist `J_i` of
`updateLocalJacobian` has a zero linear part and an angular part whose squares sum to 1, so
that its Euclidean norm is 1. -/
theorem localJacobianTwists_unit_angular (q : Vector3d ℝ) (i : Fin 3) :
    (tail3 (localJacobianTwists ⟨Real.cos, Real.sin, Real.pi⟩ .AO_XYZ q i) = 0
      ∧ ∑ a, head3 (localJacobianTwists ⟨Real.cos, Real.sin, Real.pi⟩ .AO_XYZ q i) a ^ 2 = 1
      ∧ Real.sqrt (∑ a, head3 (localJacobianTwists ⟨Real.cos, Real.sin, Real.pi⟩ .AO_XYZ q i) a ^ 2) = 1)
    ∧ (tail3 (localJacobianTwists ⟨Real.cos, Real.sin, Real.pi⟩ .AO_ZYX q i) = 0
      ∧ ∑ a, head3 (localJacobianTwists ⟨Real.cos, Real.sin, Real.pi⟩ .AO_ZYX q i) a ^ 2 = 1
      ∧ Real.sqrt (∑ a, head3 (localJacobianTwists ⟨Real.cos, Real.sin, Real.pi⟩ .AO_ZYX q i) a ^ 2) = 1) := by
  have h1 := Real.sin_sq_add_cos_sq (q 1)
  have h2 := Real.sin_sq_add_cos_sq (q 2)
  have hX : ∑ a, head3 (localJacobianTwists ⟨Real.cos, Real.sin, Real.pi⟩ .AO_XYZ q i) a ^ 2 = 1 := by
    fin_cases i <;>
      simp [localJacobianTwists, head3, Fin.sum_univ_three, Matrix.vecHead, Matrix.vecTail]
    all_goals linear_combination Real.cos (q 1) ^ 2 * h2 + h1
  have hZ : ∑ a, head3 (localJacobianTwists ⟨Real.cos, Real.sin, Real.pi⟩ .AO_ZYX q i) a ^ 2 = 1 := by
    fin_cases i <;>
      simp [localJacobianTwists, head3, Fin.sum_univ_three, Matrix.vecHead, Matrix.vecTail]
    all_goals linear_combination Real.cos (q 1) ^ 2 * h2 + h1
  exact ⟨⟨tail3_localJacobianTwists _ _ _ _, hX, by rw [hX, Real.sqrt_one]⟩,
    ⟨tail3_localJacobianTwists _ _ _ _, hZ, by rw [hZ, Real.sqrt_one]⟩⟩

end EulerJoint

end dynamics

end dart
